import Mathlib

/-!
Verification development for the traffic-simulation module `town.py`.

The module is embedded shallowly:

* Python dicts (`Town.nodes`, `Node.neighbors`, the `g_score` / `f_score` /
  `came_from` maps of A*) are insertion-ordered association lists with the
  dict update rule "overwrite in place if the key exists, else append"
  (`dictGet` / `dictSet`).
* Road weights are Python floats.  Every claim here is either generic in the
  numeric type or is settled on concrete states whose weights are small
  integers, on which Python float arithmetic is exact; so weights are taken
  in an arbitrary `LinearOrderedCommRing` and concrete runs use `Int`.
* `float("inf")` scores are `Option α` with `none` as infinity.
* A raised `KeyError` is the `Except Unit` error value (uncaught, it aborts
  the Python program).
* The two `while` loops of `a_star` / `_reconstruct_path` take a fuel
  parameter; running out of fuel yields the distinguished `timeout` result,
  which corresponds to a non-terminating Python run (never reached for the
  executions considered here).
* The `heapq` priority queue is modelled as a list kept sorted by Python's
  lexicographic order on the `(f_score, (x, y))` tuples.  This is
  observationally equivalent to a binary heap: `heappop` returns the
  minimum tuple, and tuples that compare equal are identical, so which of
  them is returned first cannot be distinguished.
* `random.sample` (random-road mode), `random.randint` (signal offsets) and
  the floating-point `sqrt` in the random road length are inputs of the
  embedding: constructors take the drawn choices, offsets and the distance
  function as parameters.
-/

/-- Traffic-light colors: the strings "green" / "yellow" / "red" used by
`town.py`. -/
inductive Color
  | green
  | yellow
  | red
deriving DecidableEq, Repr

/-- Integer grid coordinates `(x, y)` identifying an intersection. -/
abbrev Coord := Int × Int

/-- Lookup in a Python dict modelled as an association list. -/
def dictGet {β : Type} : List (Coord × β) → Coord → Option β
  | [], _ => none
  | (k, v) :: rest, key => if key = k then some v else dictGet rest key

/-- Assignment `d[key] = val` on a Python dict modelled as an association
list: overwrite in place if the key is present, append otherwise. -/
def dictSet {β : Type} : List (Coord × β) → Coord → β → List (Coord × β)
  | [], key, val => [(key, val)]
  | (k, v) :: rest, key, val =>
    if k = key then (key, val) :: rest else (k, v) :: dictSet rest key val

/-- A node in the grid representing an intersection (`Node`, town.py:19-27). -/
structure Node (α : Type) where
  x : Int
  y : Int
  neighbors : List (Coord × α)
  signal : Color
  signal_offset : Nat
deriving DecidableEq, Repr

/-- Grid-based town with roads connecting intersections (`Town`,
town.py:30-57).  `signal_step` is an `Int` because it is initialized to
`green_duration + yellow_duration - 1`. -/
structure Town (α : Type) where
  width : Nat
  height : Nat
  nodes : List (Coord × Node α)
  green_duration : Nat
  yellow_duration : Nat
  red_duration : Nat
  signal_step : Int
deriving DecidableEq, Repr

/-- The coordinates `(x, y)` for `x in range(width)`, `y in range(height)`,
in the order the two construction loops of town.py visit them. -/
def gridCoords (width height : Nat) : List Coord :=
  (List.range width).flatMap fun (x : Nat) =>
    (List.range height).map fun (y : Nat) => ((x : Int), (y : Int))

/-- The bounds test `0 <= nx < self.width and 0 <= ny < self.height`
(town.py:70). -/
def inBounds (width height : Nat) (c : Coord) : Bool :=
  decide (0 ≤ c.1) && decide (c.1 < (width : Int)) &&
    decide (0 ≤ c.2) && decide (c.2 < (height : Int))

/-- The neighbor offsets `[(-1, 0), (1, 0), (0, -1), (0, 1)]` (town.py:68). -/
def deltas : List (Int × Int) := [(-1, 0), (1, 0), (0, -1), (0, 1)]

variable {α : Type} [LinearOrderedCommRing α]

/-- The neighbor dict a grid node `(x, y)` ends up with: each in-bounds
4-directional neighbor mapped to weight `1.0` (town.py:64-71).  The four
candidate keys are pairwise distinct, so the successive dict assignments of
the source loop append them in `deltas` order. -/
def gridNeighbors (width height : Nat) (c : Coord) : List (Coord × α) :=
  ((deltas.map fun d => (c.1 + d.1, c.2 + d.2)).filter (inBounds width height)).map
    fun nb => (nb, (1 : α))

/-- The node `_create_grid` stores at coordinate `c`. -/
def gridNode (width height : Nat) (c : Coord) : Node α :=
  { x := c.1, y := c.2, neighbors := gridNeighbors width height c,
    signal := Color.green, signal_offset := 0 }

/-- `Town._create_grid` (town.py:59-71): one node per in-bounds coordinate,
with unit-cost roads to the 4-directional in-bounds neighbors. -/
def create_grid (width height : Nat) : List (Coord × Node α) :=
  (gridCoords width height).map fun c => (c, gridNode width height c)

/-- The node `_create_random_roads` initially stores at coordinate `c`
(no neighbors yet). -/
def emptyNode (c : Coord) : Node α :=
  { x := c.1, y := c.2, neighbors := [], signal := Color.green, signal_offset := 0 }

/-- One dict assignment `nodes[c].neighbors[b] = w` of the random-road loop.
The key `c` is always present when the source reaches this statement (it
draws `b` from the node list); on an absent key the source would raise. -/
def addNeighbor (nodes : List (Coord × Node α)) (c b : Coord) (w : α) :
    List (Coord × Node α) :=
  match dictGet nodes c with
  | some n => dictSet nodes c { n with neighbors := dictSet n.neighbors b w }
  | none => nodes

/-- The inner loop of `_create_random_roads` (town.py:83-88): for each drawn
`b`, skip `a == b`, otherwise store the distance symmetrically. -/
def addRoads (dist : Coord → Coord → α) (nodes : List (Coord × Node α)) (a : Coord)
    (bs : List Coord) : List (Coord × Node α) :=
  bs.foldl
    (fun ns b =>
      if a = b then ns
      else addNeighbor (addNeighbor ns a b (dist a b)) b a (dist a b))
    nodes

/-- `Town._create_random_roads` (town.py:73-88).  `choices a` stands for
`random.sample(coords, random.randint(2, 4))` drawn at node `a`, and
`dist a b` for the float `((a[0]-b[0])**2 + (a[1]-b[1])**2) ** 0.5`; both
are parameters of the embedding. -/
def create_random_roads (width height : Nat) (choices : Coord → List Coord)
    (dist : Coord → Coord → α) : List (Coord × Node α) :=
  (gridCoords width height).foldl (fun ns a => addRoads dist ns a (choices a))
    ((gridCoords width height).map fun c => (c, emptyNode c))

/-- `Town._phase_to_color` (town.py:96-101). -/
def phase_to_color (green_duration yellow_duration : Nat) (phase : Int) : Color :=
  if phase < (green_duration : Int) then Color.green
  else if phase < (green_duration : Int) + (yellow_duration : Int) then Color.yellow
  else Color.red

/-- `Town.__init__` (town.py:33-57).  `offsets c` stands for the drawn
`random.randint(0, cycle - 1)` when `randomize_signals` is set (pass the
constant-0 function otherwise).  The source computes
`(signal_step + offset) % cycle` with `%` on a positive `cycle`; Lean's
`Int.emod` agrees with Python `%` there (a town with nodes and `cycle = 0`
raises `ZeroDivisionError` in Python and is not considered). -/
def mkTown (width height signal_duration yellow_duration : Nat) (random_roads : Bool)
    (choices : Coord → List Coord) (dist : Coord → Coord → α) (offsets : Coord → Nat) :
    Town α :=
  let nodes0 := if random_roads then create_random_roads width height choices dist
                else create_grid (α := α) width height
  let green := signal_duration
  let yellow := yellow_duration
  let red := signal_duration
  let cycle : Int := (green : Int) + (yellow : Int) + (red : Int)
  let step : Int := (green : Int) + (yellow : Int) - 1
  { width := width, height := height,
    nodes := nodes0.map fun e =>
      let off := offsets e.1
      (e.1, { e.2 with signal_offset := off,
                       signal := phase_to_color green yellow ((step + (off : Int)) % cycle) }),
    green_duration := green, yellow_duration := yellow, red_duration := red,
    signal_step := step }

/-- A town built with the default durations (`signal_duration = 2`,
`yellow_duration = 1`) in grid mode with synchronized signals. -/
def mkGrid (width height : Nat) : Town α :=
  mkTown width height 2 1 false (fun _ => []) (fun _ _ => 0) (fun _ => 0)

/-- `Town.update_signals` (town.py:103-109). -/
def Town.update_signals (t : Town α) : Town α :=
  let step := t.signal_step + 1
  let cycle : Int := (t.green_duration : Int) + (t.yellow_duration : Int) + (t.red_duration : Int)
  { t with
    signal_step := step,
    nodes := t.nodes.map fun e =>
      (e.1, { e.2 with
              signal := phase_to_color t.green_duration t.yellow_duration
                ((step + (e.2.signal_offset : Int)) % cycle) }) }

/-- `Town.set_road_weight` (town.py:90-94): if `b in self.nodes[a].neighbors`,
overwrite both directions with `weight`; an absent node `a` (or `b`, in the
second assignment) raises `KeyError`. -/
def Town.set_road_weight (t : Town α) (a b : Coord) (w : α) : Except Unit (Town α) :=
  match dictGet t.nodes a with
  | none => .error ()
  | some na =>
    match dictGet na.neighbors b with
    | none => .ok t
    | some _ =>
      let nodes1 := dictSet t.nodes a { na with neighbors := dictSet na.neighbors b w }
      match dictGet nodes1 b with
      | none => .error ()
      | some nb =>
        .ok { t with nodes := dictSet nodes1 b { nb with neighbors := dictSet nb.neighbors a w } }

/-- `Town.heuristic` (town.py:111-113): Manhattan distance. -/
def heuristic (a b : Coord) : α :=
  ((a.1 - b.1).natAbs : α) + ((a.2 - b.2).natAbs : α)

/-- Result of `Town.a_star`: a returned path, a returned `None`, an uncaught
`KeyError`, or fuel exhaustion (standing for a diverging Python run). -/
inductive AStarResult
  | found : List Coord → AStarResult
  | noPath
  | keyError
  | timeout
deriving DecidableEq, Repr

/-- The mutable state of the `a_star` main loop. -/
structure AState (α : Type) where
  openSet : List (α × Coord)
  cameFrom : List (Coord × Coord)
  gScore : List (Coord × Option α)
  fScore : List (Coord × Option α)

/-- Python's `<` on coordinate pairs (lexicographic tuple comparison). -/
def coordLt (a b : Coord) : Bool :=
  decide (a.1 < b.1) || (decide (a.1 = b.1) && decide (a.2 < b.2))

/-- Python's `<` on the `(f_score, coordinate)` tuples stored in the heap. -/
def tupleLt (x y : α × Coord) : Bool :=
  decide (x.1 < y.1) || (decide (x.1 = y.1) && coordLt x.2 y.2)

/-- `heappush`: the heap is kept as a list sorted by `tupleLt`, so its head
is the element `heappop` returns. -/
def heappush (h : List (α × Coord)) (x : α × Coord) : List (α × Coord) :=
  match h with
  | [] => [x]
  | y :: rest => if tupleLt x y then x :: y :: rest else y :: heappush rest x

/-- Comparison of scores, where `none` is `float("inf")` (so that
`inf < inf` is false, as for IEEE infinities). -/
def qinfLt : Option α → Option α → Bool
  | some x, some y => decide (x < y)
  | some _, none => true
  | none, _ => false

/-- The body of `for neighbor, weight in self.nodes[current].neighbors.items()`
(town.py:131-138).  Both `g_score` reads raise `KeyError` on a missing key;
`tentative_g_score` is infinite when `g_score[current]` is, and then the
relaxation test is false. -/
def relaxOne (goal current : Coord) (st : AState α) (e : Coord × α) :
    Except Unit (AState α) :=
  let neighbor := e.1
  let weight := e.2
  match dictGet st.gScore current with
  | none => .error ()
  | some gcur =>
    match dictGet st.gScore neighbor with
    | none => .error ()
    | some gnb =>
      match gcur with
      | none => .ok st
      | some g =>
        let tentative := g + weight
        if qinfLt (some tentative) gnb then
          let fNew := tentative + heuristic neighbor goal
          .ok { openSet := if (fNew, neighbor) ∈ st.openSet then st.openSet
                           else heappush st.openSet (fNew, neighbor),
                cameFrom := dictSet st.cameFrom neighbor current,
                gScore := dictSet st.gScore neighbor (some tentative),
                fScore := dictSet st.fScore neighbor (some fNew) }
        else .ok st

/-- The `while current in came_from` loop of `_reconstruct_path`
(town.py:142-150), with the accumulator already holding the reversed list.
The fuel `came_from.length + 1` is exactly enough for any acyclic chain, so
`none` is returned precisely when the Python loop diverges. -/
def reconstructAux : List (Coord × Coord) → Coord → List Coord → Nat → Option (List Coord)
  | _, _, _, 0 => none
  | cf, current, path, fuel + 1 =>
    match dictGet cf current with
    | some prev => reconstructAux cf prev (prev :: path) fuel
    | none => some path

/-- `Town._reconstruct_path` (town.py:142-150). -/
def reconstruct_path (cf : List (Coord × Coord)) (current : Coord) : Option (List Coord) :=
  reconstructAux cf current [current] (cf.length + 1)

/-- The neighbor loop of `a_star`, relaxing the entries of
`self.nodes[current].neighbors.items()` in dict order; a raised `KeyError`
propagates. -/
def relaxList (goal current : Coord) : AState α → List (Coord × α) → Except Unit (AState α)
  | st, [] => .ok st
  | st, e :: rest =>
    match relaxOne goal current st e with
    | .error err => .error err
    | .ok st' => relaxList goal current st' rest

/-- The `while open_set:` loop of `a_star` (town.py:126-140). -/
def aStarLoop (t : Town α) (goal : Coord) : AState α → Nat → AStarResult
  | _, 0 => .timeout
  | st, fuel + 1 =>
    match st.openSet with
    | [] => .noPath
    | (_, current) :: rest =>
      if current = goal then
        match reconstruct_path st.cameFrom current with
        | some p => .found p
        | none => .timeout
      else
        match dictGet t.nodes current with
        | none => .keyError
        | some node =>
          match relaxList goal current { st with openSet := rest } node.neighbors with
          | .error _ => .keyError
          | .ok st' => aStarLoop t goal st' fuel

/-- `Town.a_star` (town.py:115-140).  The `g_score` / `f_score` dicts start
with every node at infinity, then `start` is set (added, if absent) to `0`
and to `heuristic(start, goal)`; the heap starts as `[(0, start)]`. -/
def Town.a_star (t : Town α) (start goal : Coord) (fuel : Nat) : AStarResult :=
  let gScore := dictSet (t.nodes.map fun e => (e.1, (none : Option α))) start (some 0)
  let fScore := dictSet (t.nodes.map fun e => (e.1, (none : Option α))) start
    (some (heuristic start goal))
  aStarLoop t goal
    { openSet := [((0 : α), start)], cameFrom := [], gScore := gScore, fScore := fScore } fuel

/-- `Vehicle` (town.py:153-160). -/
structure Vehicle where
  start : Coord
  goal : Coord
  path : List Coord
  position_index : Nat
deriving DecidableEq, Repr

/-- `Vehicle.move` (town.py:162-170).  The guard `position_index <
len(path) - 1` is stated with truncated `Nat` subtraction, which agrees with
the Python comparison against `-1` on an empty path (both are false). -/
def Vehicle.move (v : Vehicle) (t : Town α) : Except Unit (Vehicle × Option Coord) :=
  if v.position_index < v.path.length - 1 then
    let next_pos := v.path.getD (v.position_index + 1) (0, 0)
    match dictGet t.nodes next_pos with
    | none => .error ()
    | some node =>
      if node.signal = Color.red ∨ node.signal = Color.yellow then
        .ok (v, some (v.path.getD v.position_index (0, 0)))
      else
        let v' := { v with position_index := v.position_index + 1 }
        .ok (v', some (v'.path.getD v'.position_index (0, 0)))
  else .ok (v, none)

/-- `TrafficSimulator` (town.py:173-178). -/
structure TrafficSimulator (α : Type) where
  town : Town α
  vehicles : List Vehicle
deriving DecidableEq, Repr

/-- `TrafficSimulator.add_vehicle` (town.py:180-182):
`vehicle.path = self.town.a_star(vehicle.start, vehicle.goal) or []`.
A `found` path is never the empty list, so `or []` turns exactly the `None`
result into `[]`; `none` here stands for a raising or diverging planner run. -/
def TrafficSimulator.add_vehicle (sim : TrafficSimulator α) (v : Vehicle) (fuel : Nat) :
    Option (TrafficSimulator α) :=
  match sim.town.a_star v.start v.goal fuel with
  | .found p => some { sim with vehicles := sim.vehicles ++ [{ v with path := p }] }
  | .noPath => some { sim with vehicles := sim.vehicles ++ [{ v with path := [] }] }
  | .keyError => none
  | .timeout => none

/-- The `for vehicle in self.vehicles: vehicle.move(self.town)` loop of
`TrafficSimulator.step` (town.py:186-187). -/
def stepVehicles (t : Town α) : List Vehicle → Except Unit (List Vehicle)
  | [] => .ok []
  | v :: rest =>
    match v.move t with
    | .error e => .error e
    | .ok r =>
      match stepVehicles t rest with
      | .error e => .error e
      | .ok rest' => .ok (r.1 :: rest')

/-- `TrafficSimulator.step` (town.py:184-187): update the signals once, then
move every vehicle in registration order (an uncaught exception from a move
aborts the tick). -/
def TrafficSimulator.step (sim : TrafficSimulator α) : Except Unit (TrafficSimulator α) :=
  match stepVehicles sim.town.update_signals sim.vehicles with
  | .error e => .error e
  | .ok vehicles => .ok { town := sim.town.update_signals, vehicles := vehicles }

/-- `TrafficSimulator.is_complete` (town.py:189-190), with the same
truncated-subtraction reading as in `Vehicle.move`. -/
def TrafficSimulator.is_complete (sim : TrafficSimulator α) : Bool :=
  sim.vehicles.all fun v => decide (v.path.length - 1 ≤ v.position_index)

/-! ### Derived notions used to state the claims -/

/-- There is a road from `a` to `b` recorded at node `a`. -/
def adjacentB (t : Town α) (a b : Coord) : Bool :=
  match dictGet t.nodes a with
  | some n => (dictGet n.neighbors b).isSome
  | none => false

/-- Propositional form of `adjacentB`. -/
def Adjacent (t : Town α) (a b : Coord) : Prop := adjacentB t a b = true

/-- The stored weight of the road from `a` to `b` (0 if there is none). -/
def edgeWeight (t : Town α) (a b : Coord) : α :=
  match dictGet t.nodes a with
  | some n => (dictGet n.neighbors b).getD 0
  | none => 0

/-- Every consecutive pair of the list is connected by an existing road. -/
def pathOkB (t : Town α) : List Coord → Bool
  | [] => true
  | [_] => true
  | a :: b :: rest => adjacentB t a b && pathOkB t (b :: rest)

/-- Summed edge weight of a path. -/
def pathWeight (t : Town α) : List Coord → α
  | [] => 0
  | [_] => 0
  | a :: b :: rest => edgeWeight t a b + pathWeight t (b :: rest)

/-- A simple path of the graph from `s` to `g`. -/
def SimplePathFrom (t : Town α) (p : List Coord) (s g : Coord) : Prop :=
  p.head? = some s ∧ p.getLast? = some g ∧ pathOkB t p = true ∧ p.Nodup

instance (t : Town α) (p : List Coord) (s g : Coord) : Decidable (SimplePathFrom t p s g) :=
  inferInstanceAs
    (Decidable (p.head? = some s ∧ p.getLast? = some g ∧ pathOkB t p = true ∧ p.Nodup))

/-- `g` can be reached from `s` along existing roads. -/
def Reachable (t : Town α) : Coord → Coord → Prop :=
  Relation.ReflTransGen (Adjacent t)

/-- All stored edge weights are positive (the spec's data-model invariant). -/
def WeightsPos (t : Town α) : Prop :=
  ∀ e ∈ t.nodes, ∀ e2 ∈ e.2.neighbors, 0 < e2.2

instance (t : Town α) : Decidable (WeightsPos t) :=
  inferInstanceAs (Decidable (∀ e ∈ t.nodes, ∀ e2 ∈ e.2.neighbors, 0 < e2.2))

/-- Every recorded neighbor coordinate is itself a node of the town. -/
def ClosedTown (t : Town α) : Prop :=
  ∀ e ∈ t.nodes, ∀ e2 ∈ e.2.neighbors, (dictGet t.nodes e2.1).isSome

instance (t : Town α) : Decidable (ClosedTown t) :=
  inferInstanceAs (Decidable (∀ e ∈ t.nodes, ∀ e2 ∈ e.2.neighbors, (dictGet t.nodes e2.1).isSome))

/-- The weight node `c` records for the road to `e`, if any. -/
def edgeGet (nodes : List (Coord × Node α)) (c e : Coord) : Option α :=
  match dictGet nodes c with
  | some n => dictGet n.neighbors e
  | none => none

/-- Edge symmetry on a node table: whenever `a` lists `b` with weight `w`,
`b` lists `a` with the same `w`. -/
def SymNodes (nodes : List (Coord × Node α)) : Prop :=
  ∀ a b w, edgeGet nodes a b = some w → edgeGet nodes b a = some w

/-- Edge symmetry for a town. -/
def SymmetricTown (t : Town α) : Prop := SymNodes t.nodes

/-- The displayed color of the signal at `c`, if `c` is a node. -/
def getSignal (t : Town α) (c : Coord) : Option Color :=
  (dictGet t.nodes c).map Node.signal

/-- The signal offset stored at `c`, if `c` is a node. -/
def getOffset (t : Town α) (c : Coord) : Option Nat :=
  (dictGet t.nodes c).map Node.signal_offset

/-- `cycleLength = green_duration + yellow_duration + red_duration`. -/
def Town.cycleLength (t : Town α) : Nat :=
  t.green_duration + t.yellow_duration + t.red_duration

/-- The finite `g_score` value recorded for `a` (0 for a missing or
infinite entry); the ranking function used to show `came_from` chains are
acyclic. -/
def gval (gs : List (Coord × Option α)) (a : Coord) : α :=
  match dictGet gs a with
  | some (some q) => q
  | _ => 0

/-- Loop invariant of the `a_star` main loop (start node `s`, positive
weights): every `came_from` entry records an existing edge, strictly
increases the finite `g_score` along the chain (so chains are acyclic),
never targets `s`, and chains down to `s`; every open-set entry is `s` or a
`came_from` key. -/
structure AInv (t : Town α) (s : Coord) (st : AState α) : Prop where
  cf_edge : ∀ a b, dictGet st.cameFrom a = some b → Adjacent t b a
  cf_g : ∀ a b, dictGet st.cameFrom a = some b →
    ∃ ga gb : α, dictGet st.gScore a = some (some ga) ∧
      dictGet st.gScore b = some (some gb) ∧ gb < ga
  g_nonneg : ∀ a q, dictGet st.gScore a = some (some q) → 0 ≤ q
  start_g : dictGet st.gScore s = some (some 0)
  start_not_cf : dictGet st.cameFrom s = none
  cf_val : ∀ a b, dictGet st.cameFrom a = some b →
    b = s ∨ (dictGet st.cameFrom b).isSome = true
  open_ok : ∀ f c, (f, c) ∈ st.openSet → c = s ∨ (dictGet st.cameFrom c).isSome = true

/-- Second loop invariant, used to rule out `KeyError` on closed graphs:
open-set coordinates are nodes, and the `g_score` dict has a key for every
node and for the start. -/
structure NInv (t : Town α) (s : Coord) (st : AState α) : Prop where
  open_nodes : ∀ f c, (f, c) ∈ st.openSet → (dictGet t.nodes c).isSome = true
  g_keys : ∀ c, ((dictGet t.nodes c).isSome = true ∨ c = s) →
    (dictGet st.gScore c).isSome = true

/-! ### Concrete states used by witnesses and counterexamples -/

/-- The model distance underlying random-road mode in the concrete states
below: squared Euclidean distance.  (Only its symmetry in `a`, `b` matters,
and every edge whose weight the concrete developments depend on is either at
unit distance, where it matches the float `sqrt` exactly, or is overwritten
by `set_road_weight` first.) -/
def sqDist (a b : Coord) : Int := (a.1 - b.1) ^ 2 + (a.2 - b.2) ^ 2

/-- Drawn `random.sample` outcomes for a 5-by-1 random-road town: `(0,0)`,
`(1,0)` and `(4,0)` pick each other, `(2,0)` and `(3,0)` pick each other
(with the self-pick skipped by the source). -/
def cx1Choices : Coord → List Coord := fun c =>
  if c = (0, 0) then [(1, 0), (4, 0)]
  else if c = (1, 0) then [(0, 0), (4, 0)]
  else if c = (4, 0) then [(0, 0), (1, 0)]
  else [(2, 0), (3, 0)]

/-- The 5-by-1 random-road town right after construction. -/
def cx1Town0 : Town Int := mkTown 5 1 2 1 true cx1Choices sqDist (fun _ => 0)

/-- The same town after the pre-simulation weight edits
`set_road_weight((0,0),(1,0),1)`, `set_road_weight((1,0),(4,0),1)`,
`set_road_weight((0,0),(4,0),3)` — all on existing roads, all weights
positive integers (exact as floats). -/
def cx1TownE : Except Unit (Town Int) := do
  let t1 ← cx1Town0.set_road_weight (0, 0) (1, 0) 1
  let t2 ← t1.set_road_weight (1, 0) (4, 0) 1
  t2.set_road_weight (0, 0) (4, 0) 3

/-- The weight-edited town, extracted. -/
def cx1Town : Town Int :=
  match cx1TownE with
  | .ok t => t
  | .error _ => cx1Town0

/-- Uniform 3-by-3 grid town (the spec's concrete A* scenario). -/
def grid3 : Town Int := mkGrid 3 3

/-- Drawn `random.sample` outcomes producing a disconnected 2-by-2
random-road town: `{(0,0), (1,0)}` and `{(0,1), (1,1)}` form two separate
components (each node draws its partner and itself; the self-pick is
skipped). -/
def discChoices : Coord → List Coord := fun c =>
  if c = (0, 0) then [(1, 0), (0, 0)]
  else if c = (1, 0) then [(0, 0), (1, 0)]
  else if c = (0, 1) then [(1, 1), (0, 1)]
  else [(0, 1), (1, 1)]

/-- The disconnected 2-by-2 random-road town. -/
def discTown : Town Int := mkTown 2 2 2 1 true discChoices sqDist (fun _ => 0)

/-- The default 2-by-2 grid after `set_road_weight((0,0),(1,0),0)`: the
update is accepted although the weight is not positive. -/
def c4Town : Town Int :=
  match (mkGrid 2 2 : Town Int).set_road_weight (0, 0) (1, 0) 0 with
  | .ok t => t
  | .error _ => mkGrid 2 2

/-! ### Association-list (Python dict) lemmas -/

theorem dictGet_dictSet {β : Type} (d : List (Coord × β)) (k : Coord) (v : β) (k' : Coord) :
    dictGet (dictSet d k v) k' = if k' = k then some v else dictGet d k' := by
  induction d with
  | nil => simp [dictGet, dictSet]
  | cons e rest ih =>
    obtain ⟨ek, ev⟩ := e
    by_cases h1 : ek = k
    · subst h1
      by_cases h2 : k' = ek <;> simp [dictGet, dictSet, h2]
    · by_cases h2 : k' = ek
      · subst h2
        simp [dictGet, dictSet, h1, Ne.symm h1]
      · simp [dictGet, dictSet, h1, h2, ih]

theorem dictGet_mem {β : Type} {d : List (Coord × β)} {k : Coord} {v : β}
    (h : dictGet d k = some v) : (k, v) ∈ d := by
  induction d with
  | nil => simp [dictGet] at h
  | cons e rest ih =>
    obtain ⟨ek, ev⟩ := e
    by_cases hk : k = ek
    · subst hk
      simp [dictGet] at h
      simp [h]
    · simp [dictGet, hk] at h
      exact List.mem_cons_of_mem _ (ih h)

theorem dictGet_map_value {β γ : Type} (d : List (Coord × β)) (f : Coord → β → γ) (k : Coord) :
    dictGet (d.map fun e => (e.1, f e.1 e.2)) k = (dictGet d k).map (f k) := by
  induction d with
  | nil => simp [dictGet]
  | cons e rest ih =>
    by_cases hk : k = e.1 <;> simp [dictGet, hk, ih]

theorem dictGet_map {β γ : Type} (d : List (Coord × β)) (f : β → γ) (k : Coord) :
    dictGet (d.map fun e => (e.1, f e.2)) k = (dictGet d k).map f := by
  induction d with
  | nil => simp [dictGet]
  | cons e rest ih =>
    by_cases hk : k = e.1 <;> simp [dictGet, hk, ih]

theorem dictSet_keys {β : Type} (d : List (Coord × β)) (k : Coord) (v : β)
    (h : (dictGet d k).isSome) : (dictSet d k v).map Prod.fst = d.map Prod.fst := by
  induction d with
  | nil => simp [dictGet] at h
  | cons e rest ih =>
    obtain ⟨ek, ev⟩ := e
    by_cases hk : ek = k
    · subst hk; simp [dictSet]
    · simp [dictGet, Ne.symm hk] at h
      simp [dictSet, hk, ih h]

theorem dictSet_nodes_keys (d : List (Coord × Node α)) (k : Coord) (v v0 : Node α)
    (h : dictGet d k = some v0)
    (hp : v.neighbors.map Prod.fst = v0.neighbors.map Prod.fst) :
    (dictSet d k v).map (fun e => (e.1, e.2.neighbors.map Prod.fst)) =
      d.map (fun e => (e.1, e.2.neighbors.map Prod.fst)) := by
  induction d with
  | nil => simp [dictGet] at h
  | cons e rest ih =>
    obtain ⟨ek, ev⟩ := e
    by_cases hk : ek = k
    · subst hk
      simp [dictGet] at h
      simp [dictSet, hp, h]
    · simp [dictGet, Ne.symm hk] at h
      simp [dictSet, hk, ih h]

/-! ### Claim C2: the vehicle movement rule -/

/-- C2.  For a vehicle whose position index is strictly below the last index
of its path, one `Vehicle.move` advances the index by exactly 1 when the
signal of `path[index+1]` is green and leaves the vehicle unchanged when
that signal is red or yellow; a vehicle whose index equals the last index is
left unchanged (`move` returns `None`). -/
theorem vehicle_move_respects_signals (v : Vehicle) (t : Town α) (node : Node α)
    (hnext : dictGet t.nodes (v.path.getD (v.position_index + 1) (0, 0)) = some node) :
    (v.position_index < v.path.length - 1 →
      ((node.signal = Color.red ∨ node.signal = Color.yellow →
          v.move t = .ok (v, some (v.path.getD v.position_index (0, 0)))) ∧
        (node.signal = Color.green →
          v.move t = .ok ({ v with position_index := v.position_index + 1 },
            some (v.path.getD (v.position_index + 1) (0, 0)))))) ∧
    (v.position_index = v.path.length - 1 → v.move t = .ok (v, none)) := by
  constructor
  · intro hlt
    constructor
    · intro hsig
      simp only [Vehicle.move, if_pos hlt, hnext, if_pos hsig]
    · intro hsig
      have hns : ¬(node.signal = Color.red ∨ node.signal = Color.yellow) := by
        rw [hsig]; simp
      simp only [Vehicle.move, if_pos hlt, hnext, if_neg hns]
  · intro heq
    have hnlt : ¬ v.position_index < v.path.length - 1 := by omega
    simp only [Vehicle.move, if_neg hnlt]

/-- Witness for C2: on a fresh 2-by-1 grid (signals yellow), the vehicle
waits at index 0. -/
theorem vehicle_move_respects_signals_witness :
    Vehicle.move ⟨(0, 0), (1, 0), [(0, 0), (1, 0)], 0⟩ (mkGrid 2 1 : Town Int) =
      .ok (⟨(0, 0), (1, 0), [(0, 0), (1, 0)], 0⟩, some (0, 0)) :=
  ((vehicle_move_respects_signals ⟨(0, 0), (1, 0), [(0, 0), (1, 0)], 0⟩ (mkGrid 2 1)
      ⟨1, 0, [((0, 0), 1)], Color.yellow, 0⟩ (by decide)).1 (by decide)).1 (by decide)

/-! ### Claim C4: set_road_weight and non-positive weights -/

/-- Counterexample to C4 as stated: `set_road_weight((0,0),(1,0),0)` on the
default 2-by-2 grid is not rejected — it succeeds and overwrites the stored
weight 1 with the non-positive weight 0. -/
theorem set_road_weight_accepts_nonpositive :
    (mkGrid 2 2 : Town Int).set_road_weight (0, 0) (1, 0) 0 = .ok c4Town ∧
      edgeWeight c4Town (0, 0) (1, 0) = 0 ∧
      edgeWeight (mkGrid 2 2 : Town Int) (0, 0) (1, 0) = 1 := by
  refine ⟨rfl, by decide, by decide⟩

/-- C4 amended.  `set_road_weight` validates only the existence of the edge,
never the sign of the weight: on an existing edge `(a, b)` (with `a ≠ b` and
the symmetric reverse entry present, as in every constructed town) it
succeeds for every weight `w` — including `w ≤ 0` — storing `w` in both
directions; the node set, the neighbor sets and all other edge weights are
unchanged.  On a non-existing edge it is a no-op. -/
theorem set_road_weight_spec (t : Town α) (a b : Coord) (w : α) (na nb : Node α)
    (hab : a ≠ b) (ha : dictGet t.nodes a = some na) (hb : dictGet t.nodes b = some nb)
    (hba : (dictGet nb.neighbors a).isSome) :
    (dictGet na.neighbors b = none → t.set_road_weight a b w = .ok t) ∧
    (∀ w0, dictGet na.neighbors b = some w0 →
      ∃ t', t.set_road_weight a b w = .ok t' ∧
        edgeWeight t' a b = w ∧ edgeWeight t' b a = w ∧
        t'.width = t.width ∧ t'.height = t.height ∧
        t'.nodes.map (fun e => (e.1, e.2.neighbors.map Prod.fst)) =
          t.nodes.map (fun e => (e.1, e.2.neighbors.map Prod.fst)) ∧
        (∀ c d : Coord, ¬(c = a ∧ d = b) → ¬(c = b ∧ d = a) →
          edgeWeight t' c d = edgeWeight t c d)) := by
  constructor
  · intro hnone
    simp only [Town.set_road_weight, ha, hnone]
  · intro w0 hw0
    have hb1 : dictGet (dictSet t.nodes a { na with neighbors := dictSet na.neighbors b w }) b =
        some nb := by
      rw [dictGet_dictSet, if_neg (Ne.symm hab), hb]
    use { t with nodes := dictSet (dictSet t.nodes a { na with neighbors := dictSet na.neighbors b w }) b { nb with neighbors := dictSet nb.neighbors a w } }
    refine ⟨by simp only [Town.set_road_weight, ha, hw0, hb1], ?_, ?_, rfl, rfl, ?_, ?_⟩
    · show edgeWeight _ a b = w
      simp [edgeWeight, dictGet_dictSet, hab, Ne.symm hab]
    · show edgeWeight _ b a = w
      simp [edgeWeight, dictGet_dictSet, hab, Ne.symm hab]
    · show List.map _ (dictSet _ b _) = _
      rw [dictSet_nodes_keys _ b _ nb hb1 (dictSet_keys _ _ _ hba)]
      exact dictSet_nodes_keys _ a _ na ha (dictSet_keys _ _ _ (by simp [hw0]))
    · intro c d hcd1 hcd2
      by_cases hc1 : c = b
      · have hd : d ≠ a := fun hda => hcd2 ⟨hc1, hda⟩
        simp [edgeWeight, dictGet_dictSet, hc1, hb, hd]
      · by_cases hc2 : c = a
        · have hd : d ≠ b := fun hdb => hcd1 ⟨hc2, hdb⟩
          simp [edgeWeight, dictGet_dictSet, hc1, hc2, ha, hd, hab]
        · simp [edgeWeight, dictGet_dictSet, hc1, hc2]

/-- Witness for C4 amended: updating the weight of edge `((0,0),(1,0))` on
the default 2-by-2 grid to 0 stores 0 in both directions. -/
theorem set_road_weight_spec_witness :
    ∃ t', (mkGrid 2 2 : Town Int).set_road_weight (0, 0) (1, 0) 0 = .ok t' ∧
      edgeWeight t' (0, 0) (1, 0) = 0 ∧ edgeWeight t' (1, 0) (0, 0) = 0 := by
  obtain ⟨t', h1, h2, h3, -⟩ :=
    (set_road_weight_spec (mkGrid 2 2 : Town Int) (0, 0) (1, 0) 0
        ⟨0, 0, [((1, 0), 1), ((0, 1), 1)], Color.yellow, 0⟩
        ⟨1, 0, [((0, 0), 1), ((1, 1), 1)], Color.yellow, 0⟩
        (by decide) (by decide) (by decide) (by decide)).2 1 (by decide)
  exact ⟨t', h1, h2, h3⟩

/-! ### Signal-cycle lemmas, claims C7 and C8 -/

theorem update_signals_signal_step (t : Town α) :
    t.update_signals.signal_step = t.signal_step + 1 := rfl

theorem update_signals_green (t : Town α) :
    t.update_signals.green_duration = t.green_duration := rfl

theorem update_signals_yellow (t : Town α) :
    t.update_signals.yellow_duration = t.yellow_duration := rfl

theorem update_signals_red (t : Town α) :
    t.update_signals.red_duration = t.red_duration := rfl

theorem dictGet_update_signals (t : Town α) (c : Coord) :
    dictGet t.update_signals.nodes c = (dictGet t.nodes c).map fun n0 =>
      { n0 with
        signal := phase_to_color t.green_duration t.yellow_duration
                    ((t.signal_step + 1 + (n0.signal_offset : Int)) %
                      ((t.green_duration : Int) + (t.yellow_duration : Int) +
                        (t.red_duration : Int))) } := by
  simp only [Town.update_signals]
  generalize t.nodes = d
  induction d with
  | nil => rfl
  | cons e rest ih => by_cases hk : c = e.1 <;> simp [dictGet, hk, ih]

theorem getOffset_update_signals (t : Town α) (c : Coord) :
    getOffset t.update_signals c = getOffset t c := by
  simp only [getOffset, dictGet_update_signals]
  cases dictGet t.nodes c <;> rfl

theorem getSignal_update_signals (t : Town α) (c : Coord) :
    getSignal t.update_signals c =
      (getOffset t c).map fun off =>
        phase_to_color t.green_duration t.yellow_duration
          ((t.signal_step + 1 + (off : Int)) %
            ((t.green_duration : Int) + (t.yellow_duration : Int) + (t.red_duration : Int))) := by
  simp only [getSignal, getOffset, dictGet_update_signals]
  cases dictGet t.nodes c <;> rfl

theorem iterate_update_signals_step (t : Town α) (m : Nat) :
    (Town.update_signals^[m] t).signal_step = t.signal_step + m := by
  induction m with
  | zero => simp
  | succ k ih =>
    rw [Function.iterate_succ_apply', update_signals_signal_step, ih]
    push_cast
    ring

theorem iterate_update_signals_green (t : Town α) (m : Nat) :
    (Town.update_signals^[m] t).green_duration = t.green_duration := by
  induction m with
  | zero => simp
  | succ k ih => rw [Function.iterate_succ_apply', update_signals_green, ih]

theorem iterate_update_signals_yellow (t : Town α) (m : Nat) :
    (Town.update_signals^[m] t).yellow_duration = t.yellow_duration := by
  induction m with
  | zero => simp
  | succ k ih => rw [Function.iterate_succ_apply', update_signals_yellow, ih]

theorem iterate_update_signals_red (t : Town α) (m : Nat) :
    (Town.update_signals^[m] t).red_duration = t.red_duration := by
  induction m with
  | zero => simp
  | succ k ih => rw [Function.iterate_succ_apply', update_signals_red, ih]

theorem iterate_update_signals_offset (t : Town α) (m : Nat) (c : Coord) :
    getOffset (Town.update_signals^[m] t) c = getOffset t c := by
  induction m with
  | zero => simp
  | succ k ih => rw [Function.iterate_succ_apply', getOffset_update_signals, ih]

/-- C7.  After construction and before any tick, the first `update_signals`
call puts every node with offset 0 in the red phase: the step counter starts
at `green_duration + yellow_duration - 1` and is incremented before the
colors are computed.  (`1 ≤ signal_duration` because durations are positive,
per the spec; with `signal_duration = 0` the red phase would be empty.) -/
theorem first_update_signals_red (W H sd yd : Nat) (rr : Bool)
    (choices : Coord → List Coord) (dist : Coord → Coord → α) (offsets : Coord → Nat)
    (hsd : 1 ≤ sd) (c : Coord) (n : Node α)
    (hn : dictGet (mkTown W H sd yd rr choices dist offsets).update_signals.nodes c = some n)
    (hoff : n.signal_offset = 0) : n.signal = Color.red := by
  set t : Town α := mkTown W H sd yd rr choices dist offsets with ht
  rw [dictGet_update_signals] at hn
  obtain ⟨n0, hn0, hfn⟩ := Option.map_eq_some'.mp hn
  have hoff0 : n0.signal_offset = 0 := by rw [← hfn] at hoff; exact hoff
  have hstep : t.signal_step = (sd : Int) + (yd : Int) - 1 := rfl
  have hg : t.green_duration = sd := rfl
  have hy : t.yellow_duration = yd := rfl
  have hr : t.red_duration = sd := rfl
  rw [← hfn]
  show phase_to_color t.green_duration t.yellow_duration _ = Color.red
  rw [hstep, hg, hy, hr, hoff0]
  have hphase : ((sd : Int) + (yd : Int) - 1 + 1 + ((0 : Nat) : Int)) %
      ((sd : Int) + (yd : Int) + (sd : Int)) = (sd : Int) + (yd : Int) := by
    rw [Int.emod_eq_of_lt (by omega) (by omega)]
    omega
  rw [hphase, phase_to_color, if_neg (by omega), if_neg (by omega)]

/-- Witness for C7: on a 1-by-1 town with the default durations, the single
node shows red after the first signal update. -/
theorem first_update_signals_red_witness :
    ({ x := 0, y := 0, neighbors := [], signal := Color.red, signal_offset := 0 } :
      Node Int).signal = Color.red :=
  first_update_signals_red 1 1 2 1 false (fun _ => []) (fun _ _ => (0 : Int)) (fun _ => 0)
    (by decide) (0, 0) _ (by decide) (by decide)

theorem dictGet_mkTown_nodes (W H sd yd : Nat) (rr : Bool) (choices : Coord → List Coord)
    (dist : Coord → Coord → α) (offsets : Coord → Nat) (c : Coord) :
    dictGet (mkTown W H sd yd rr choices dist offsets).nodes c =
      (dictGet (if rr then create_random_roads W H choices dist
          else create_grid (α := α) W H) c).map fun n0 =>
        { n0 with
          signal_offset := offsets c,
          signal := phase_to_color sd yd
                      ((((sd : Int) + (yd : Int) - 1) + (offsets c : Int)) %
                        ((sd : Int) + (yd : Int) + (sd : Int))) } := by
  simp only [mkTown]
  generalize (if rr then create_random_roads W H choices dist
    else create_grid (α := α) W H) = d
  induction d with
  | nil => rfl
  | cons e rest ih => by_cases hk : c = e.1 <;> simp [dictGet, hk, ih]

theorem getOffset_mkTown (W H sd yd : Nat) (rr : Bool) (choices : Coord → List Coord)
    (dist : Coord → Coord → α) (offsets : Coord → Nat) (c : Coord) :
    getOffset (mkTown W H sd yd rr choices dist offsets) c =
      (dictGet (if rr then create_random_roads W H choices dist
          else create_grid (α := α) W H) c).map fun _ => offsets c := by
  simp only [getOffset, dictGet_mkTown_nodes]
  cases dictGet (if rr then create_random_roads W H choices dist
    else create_grid (α := α) W H) c <;> rfl

theorem getSignal_iterate_mkTown (W H sd yd : Nat) (rr : Bool) (choices : Coord → List Coord)
    (dist : Coord → Coord → α) (offsets : Coord → Nat) (m : Nat) (c : Coord) :
    getSignal (Town.update_signals^[m] (mkTown W H sd yd rr choices dist offsets)) c =
      (getOffset (mkTown W H sd yd rr choices dist offsets) c).map fun off =>
        phase_to_color sd yd
          ((((sd : Int) + (yd : Int) - 1) + (m : Int) + (off : Int)) %
            ((sd : Int) + (yd : Int) + (sd : Int))) := by
  induction m with
  | zero =>
    simp only [Function.iterate_zero, id_eq, getSignal, getOffset, dictGet_mkTown_nodes]
    cases dictGet (if rr then create_random_roads W H choices dist
      else create_grid (α := α) W H) c <;> simp
  | succ k ih =>
    rw [Function.iterate_succ_apply', getSignal_update_signals,
      iterate_update_signals_offset, iterate_update_signals_step,
      iterate_update_signals_green, iterate_update_signals_yellow,
      iterate_update_signals_red]
    have hg : (mkTown W H sd yd rr choices dist offsets : Town α).green_duration = sd := rfl
    have hy : (mkTown W H sd yd rr choices dist offsets : Town α).yellow_duration = yd := rfl
    have hr : (mkTown W H sd yd rr choices dist offsets : Town α).red_duration = sd := rfl
    have hs : (mkTown W H sd yd rr choices dist offsets : Town α).signal_step =
        (sd : Int) + (yd : Int) - 1 := rfl
    rw [hg, hy, hr, hs]
    apply Option.map_congr
    intro off _
    have harg : (sd : Int) + (yd : Int) - 1 + (k : Int) + 1 + (off : Int) =
        (sd : Int) + (yd : Int) - 1 + ((k + 1 : Nat) : Int) + (off : Int) := by
      push_cast; ring
    rw [harg]

/-- C8.  For every constructed town, every node and every tick count `k`,
the displayed signal color after `k + cycleLength` calls of
`update_signals` equals the color after `k` calls, where
`cycleLength = green_duration + yellow_duration + red_duration`.  The case
`k = 0` compares against the colors assigned at construction time. -/
theorem signal_color_periodic (W H sd yd : Nat) (rr : Bool) (choices : Coord → List Coord)
    (dist : Coord → Coord → α) (offsets : Coord → Nat) (k : Nat) (c : Coord) :
    getSignal (Town.update_signals^[k +
        (mkTown W H sd yd rr choices dist offsets : Town α).cycleLength]
      (mkTown W H sd yd rr choices dist offsets)) c =
      getSignal (Town.update_signals^[k] (mkTown W H sd yd rr choices dist offsets)) c := by
  rw [getSignal_iterate_mkTown, getSignal_iterate_mkTown]
  apply Option.map_congr
  intro off _
  have hcyc : (mkTown W H sd yd rr choices dist offsets : Town α).cycleLength =
      sd + yd + sd := rfl
  rw [hcyc]
  have harg : (sd : Int) + (yd : Int) - 1 + ((k + (sd + yd + sd) : Nat) : Int) + (off : Int) =
      ((sd : Int) + (yd : Int) - 1 + (k : Int) + (off : Int)) +
        ((sd : Int) + (yd : Int) + (sd : Int)) * 1 := by
    push_cast; ring
  rw [harg, Int.add_mul_emod_self_left]

/-! ### Claim C10: the frame of TrafficSimulator.step -/

theorem move_frame {v v' : Vehicle} {t : Town α} {r : Option Coord}
    (h : v.move t = .ok (v', r)) :
    v'.start = v.start ∧ v'.goal = v.goal ∧ v'.path = v.path ∧
      (v'.position_index = v.position_index ∨ v'.position_index = v.position_index + 1) := by
  by_cases hlt : v.position_index < v.path.length - 1
  · cases hd : dictGet t.nodes (v.path.getD (v.position_index + 1) (0, 0)) with
    | none =>
      simp only [Vehicle.move, if_pos hlt, hd] at h
      cases h
    | some node =>
      by_cases hsig : node.signal = Color.red ∨ node.signal = Color.yellow
      · simp only [Vehicle.move, if_pos hlt, hd, if_pos hsig] at h
        injection h with h
        injection h with h1 h2
        rw [← h1]
        exact ⟨rfl, rfl, rfl, Or.inl rfl⟩
      · simp only [Vehicle.move, if_pos hlt, hd, if_neg hsig] at h
        injection h with h
        injection h with h1 h2
        rw [← h1]
        exact ⟨rfl, rfl, rfl, Or.inr rfl⟩
  · simp only [Vehicle.move, if_neg hlt] at h
    injection h with h
    injection h with h1 h2
    rw [← h1]
    exact ⟨rfl, rfl, rfl, Or.inl rfl⟩

theorem stepVehicles_frame (t : Town α) :
    ∀ vs vs', stepVehicles t vs = .ok vs' →
      List.Forall₂
        (fun v v' => v'.start = v.start ∧ v'.goal = v.goal ∧ v'.path = v.path ∧
          (v'.position_index = v.position_index ∨
            v'.position_index = v.position_index + 1))
        vs vs' := by
  intro vs
  induction vs with
  | nil =>
    intro vs' h
    simp only [stepVehicles] at h
    injection h with h
    rw [← h]
    exact .nil
  | cons v rest ih =>
    intro vs' h
    cases hm : v.move t with
    | error e =>
      simp only [stepVehicles, hm] at h
      cases h
    | ok r =>
      cases hr : stepVehicles t rest with
      | error e =>
        simp only [stepVehicles, hm, hr] at h
        cases h
      | ok rest' =>
        simp only [stepVehicles, hm, hr] at h
        injection h with h
        rw [← h]
        have hmv : v.move t = .ok (r.1, r.2) := by rw [hm]
        exact .cons (move_frame hmv) (ih rest' hr)

/-- C10.  One `TrafficSimulator.step()` call mutates only the signal step
counter, the per-node signal colors and the vehicles' position indices
(each by at most 1): the grid dimensions, the signal durations, every
node's coordinates, neighbor dict (hence edge weights) and offset, the
number of vehicles, and every vehicle's start, goal and path are unchanged. -/
theorem step_frame (sim sim' : TrafficSimulator α) (h : sim.step = .ok sim') :
    sim'.town.width = sim.town.width ∧
    sim'.town.height = sim.town.height ∧
    sim'.town.green_duration = sim.town.green_duration ∧
    sim'.town.yellow_duration = sim.town.yellow_duration ∧
    sim'.town.red_duration = sim.town.red_duration ∧
    sim'.town.nodes.map (fun e => (e.1, e.2.x, e.2.y, e.2.neighbors, e.2.signal_offset)) =
      sim.town.nodes.map (fun e => (e.1, e.2.x, e.2.y, e.2.neighbors, e.2.signal_offset)) ∧
    List.Forall₂
      (fun v v' => v'.start = v.start ∧ v'.goal = v.goal ∧ v'.path = v.path ∧
        (v'.position_index = v.position_index ∨ v'.position_index = v.position_index + 1))
      sim.vehicles sim'.vehicles := by
  cases hr : stepVehicles sim.town.update_signals sim.vehicles with
  | error e =>
    simp only [TrafficSimulator.step, hr] at h
    cases h
  | ok vs =>
    simp only [TrafficSimulator.step, hr] at h
    injection h with h
    rw [← h]
    refine ⟨rfl, rfl, rfl, rfl, rfl, ?_, stepVehicles_frame _ _ _ hr⟩
    show (sim.town.update_signals.nodes.map _) = _
    simp only [Town.update_signals, List.map_map]
    rfl

/-- Witness for C10: one step of a 1-by-1 town with a single already-arrived
vehicle keeps all frame components. -/
theorem step_frame_witness :
    List.Forall₂
      (fun v v' => v'.start = v.start ∧ v'.goal = v.goal ∧ v'.path = v.path ∧
        (v'.position_index = v.position_index ∨ v'.position_index = v.position_index + 1))
      ([⟨(0, 0), (0, 0), [(0, 0)], 0⟩] : List Vehicle)
      (⟨(mkGrid 1 1 : Town Int).update_signals, [⟨(0, 0), (0, 0), [(0, 0)], 0⟩]⟩ :
        TrafficSimulator Int).vehicles :=
  (step_frame (⟨mkGrid 1 1, [⟨(0, 0), (0, 0), [(0, 0)], 0⟩]⟩ : TrafficSimulator Int)
    ⟨(mkGrid 1 1 : Town Int).update_signals, [⟨(0, 0), (0, 0), [(0, 0)], 0⟩]⟩ rfl).2.2.2.2.2.2

/-! ### Claim C5: invalid coordinates -/

/-- Counterexample to C5 as stated: passing a coordinate that is not a node
does not produce a graceful "lookup failure" result — it raises an uncaught
`KeyError`.  `a_star` with the out-of-bounds start `(5,5)` on the 2-by-2
grid raises (it does not return the "no path" result), and `Vehicle.move`
raises when the next path entry is not a node. -/
theorem invalid_coord_raises_cx :
    (mkGrid 2 2 : Town Int).a_star (5, 5) (0, 0) 10 = .keyError ∧
    (mkGrid 2 2 : Town Int).a_star (5, 5) (0, 0) 10 ≠ .noPath ∧
    Vehicle.move ⟨(0, 0), (9, 9), [(0, 0), (9, 9)], 0⟩ (mkGrid 2 2 : Town Int) =
      .error () :=
  ⟨by decide, by decide, rfl⟩

/-- C5 amended.  A coordinate that is not a node of the graph is not
guarded against: `a_star` started there (with `start ≠ goal`) raises
`KeyError` when it expands the start node, and `Vehicle.move` raises
`KeyError` when the next path entry is such a coordinate.  The uncaught
exception is the embedding's error result, not a reported lookup failure. -/
theorem invalid_coord_keyerror (t : Town α) (s g : Coord) (fuel : Nat)
    (hs : dictGet t.nodes s = none) (hsg : s ≠ g) (hfuel : 1 ≤ fuel) :
    t.a_star s g fuel = .keyError ∧
    ∀ v : Vehicle, v.position_index < v.path.length - 1 →
      v.path.getD (v.position_index + 1) (0, 0) = s → v.move t = .error () := by
  constructor
  · obtain ⟨m, rfl⟩ : ∃ m, fuel = m + 1 := ⟨fuel - 1, by omega⟩
    simp only [Town.a_star, aStarLoop, if_neg hsg, hs]
  · intro v hlt hnext
    simp only [Vehicle.move, if_pos hlt, hnext, hs]

/-- Witness for C5 amended, at the out-of-bounds coordinate `(5,5)` of the
2-by-2 grid. -/
theorem invalid_coord_keyerror_witness :
    (mkGrid 2 2 : Town Int).a_star (5, 5) (0, 0) 10 = .keyError ∧
    Vehicle.move ⟨(0, 0), (0, 0), [(0, 0), (5, 5)], 0⟩ (mkGrid 2 2 : Town Int) =
      .error () :=
  ⟨(invalid_coord_keyerror (mkGrid 2 2 : Town Int) (5, 5) (0, 0) 10 (by decide) (by decide)
      (by decide)).1,
    (invalid_coord_keyerror (mkGrid 2 2 : Town Int) (5, 5) (0, 0) 10 (by decide) (by decide)
      (by decide)).2 ⟨(0, 0), (0, 0), [(0, 0), (5, 5)], 0⟩ (by decide) (by decide)⟩

/-! ### Claim C1: A* optimality -/

/-- Every stored edge of the 3-by-3 uniform grid raises the Manhattan
distance to the goal `(2,2)` by at most its weight. -/
theorem grid3_edge_bound :
    ∀ e ∈ grid3.nodes, ∀ e2 ∈ e.2.neighbors,
      heuristic e.1 ((2 : Int), (2 : Int)) ≤ e2.2 + heuristic e2.1 ((2 : Int), (2 : Int)) := by
  decide

/-- Any path of the 3-by-3 uniform grid ending at `(2,2)` weighs at least
the Manhattan distance from its first element to `(2,2)`. -/
theorem grid3_path_lower (p : List Coord) :
    ∀ a, p.head? = some a → p.getLast? = some ((2 : Int), (2 : Int)) →
      pathOkB grid3 p = true →
      heuristic a ((2 : Int), (2 : Int)) ≤ pathWeight grid3 p := by
  induction p with
  | nil => intro a ha _ _; simp at ha
  | cons b q ih =>
    intro a ha hlast hok
    have hab : b = a := by simpa using ha
    subst hab
    cases q with
    | nil =>
      have hb : b = ((2 : Int), (2 : Int)) := by simpa using hlast
      subst hb
      simp [pathWeight, heuristic]
    | cons c q' =>
      simp only [pathOkB, Bool.and_eq_true] at hok
      obtain ⟨hadj, hok'⟩ := hok
      cases hn : dictGet grid3.nodes b with
      | none => simp [adjacentB, hn] at hadj
      | some n =>
        simp only [adjacentB, hn] at hadj
        obtain ⟨w, hw⟩ := Option.isSome_iff_exists.mp hadj
        · have hmem1 : (b, n) ∈ grid3.nodes := dictGet_mem hn
          have hmem2 : (c, w) ∈ n.neighbors := dictGet_mem hw
          have hbound := grid3_edge_bound (b, n) hmem1 (c, w) hmem2
          have hlast' : (c :: q').getLast? = some ((2 : Int), (2 : Int)) := by
            rwa [List.getLast?_cons_cons] at hlast
          have hih := ih c (by simp) hlast' hok'
          have hew : edgeWeight grid3 b c = w := by
            simp [edgeWeight, hn, hw]
          calc heuristic b ((2 : Int), (2 : Int)) ≤
                w + heuristic c ((2 : Int), (2 : Int)) := hbound
            _ ≤ w + pathWeight grid3 (c :: q') := by
                exact add_le_add_left hih w
            _ = pathWeight grid3 (b :: c :: q') := by
                rw [pathWeight, hew]

/-- C1 amended.  On the uniform 3-by-3 grid (the spec's concrete scenario),
`a_star((0,0), (2,2))` returns a path whose first element is the start,
whose last element is the goal, and whose summed edge weight 4 equals the
minimum total weight over all simple paths.  (By the counterexample, this
minimality does not extend to every graph state: with edited or random-road
weights below the Manhattan gap the heuristic is inadmissible and `a_star`
can return a strictly heavier path.) -/
theorem a_star_grid3_minimal :
    grid3.a_star (0, 0) (2, 2) 40 = .found [(0, 0), (0, 1), (0, 2), (1, 2), (2, 2)] ∧
    SimplePathFrom grid3 [(0, 0), (0, 1), (0, 2), (1, 2), (2, 2)] (0, 0) (2, 2) ∧
    pathWeight grid3 [(0, 0), (0, 1), (0, 2), (1, 2), (2, 2)] = 4 ∧
    ∀ q, SimplePathFrom grid3 q (0, 0) (2, 2) → 4 ≤ pathWeight grid3 q := by
  refine ⟨by decide, by decide, by decide, ?_⟩
  intro q hq
  obtain ⟨hh, hl, hok, -⟩ := hq
  have hlow := grid3_path_lower q (0, 0) hh hl hok
  have h4 : heuristic ((0 : Int), (0 : Int)) ((2 : Int), (2 : Int)) = (4 : Int) := by decide
  rwa [h4] at hlow

/-- Witness for C1 amended: the path `a_star` returns is itself a simple
path from `(0,0)` to `(2,2)`, so the lower bound applies to it. -/
theorem a_star_grid3_minimal_witness :
    (4 : Int) ≤ pathWeight grid3 [(0, 0), (0, 1), (0, 2), (1, 2), (2, 2)] :=
  a_star_grid3_minimal.2.2.2 [(0, 0), (0, 1), (0, 2), (1, 2), (2, 2)] (by decide)

/-- Counterexample to C1 as stated: on the random-road town `cx1Town`
(reachable by construction plus three positive-integer `set_road_weight`
edits), `a_star((0,0), (4,0))` returns the direct road of weight 3 although
the simple path through `(1,0)` weighs 2.  The Manhattan heuristic
overestimates the remaining cost over the long road `((1,0), (4,0))` of
weight 1, so A* pops the goal too early. -/
theorem a_star_not_minimal_cx :
    cx1Town.a_star (0, 0) (4, 0) 20 = .found [(0, 0), (4, 0)] ∧
    pathWeight cx1Town [(0, 0), (4, 0)] = 3 ∧
    SimplePathFrom cx1Town [(0, 0), (1, 0), (4, 0)] (0, 0) (4, 0) ∧
    pathWeight cx1Town [(0, 0), (1, 0), (4, 0)] = 2 :=
  ⟨by decide, by decide, by decide, by decide⟩

/-! ### Claim C6: edge symmetry -/

theorem dictGet_map_self {β : Type} (l : List Coord) (f : Coord → β) (c : Coord) :
    dictGet (l.map fun k => (k, f k)) c = if c ∈ l then some (f c) else none := by
  induction l with
  | nil => simp [dictGet]
  | cons k rest ih =>
    by_cases hk : c = k
    · subst hk; simp [dictGet, ih]
    · simp [dictGet, hk, ih]

theorem inBounds_iff (W H : Nat) (c : Coord) :
    inBounds W H c = true ↔ 0 ≤ c.1 ∧ c.1 < (W : Int) ∧ 0 ≤ c.2 ∧ c.2 < (H : Int) := by
  simp [inBounds, and_assoc]

theorem mem_gridCoords (W H : Nat) (c : Coord) :
    c ∈ gridCoords W H ↔ inBounds W H c = true := by
  obtain ⟨c1, c2⟩ := c
  rw [inBounds_iff]
  constructor
  · intro h
    rcases List.mem_flatMap.mp h with ⟨x, hx, hmem⟩
    rcases List.mem_map.mp hmem with ⟨y, hy, hc⟩
    rw [List.mem_range] at hx hy
    cases hc
    exact ⟨by omega, by omega, by omega, by omega⟩
  · rintro ⟨h1, h2, h3, h4⟩
    apply List.mem_flatMap.mpr
    refine ⟨c1.toNat, List.mem_range.mpr (by omega), ?_⟩
    apply List.mem_map.mpr
    refine ⟨c2.toNat, List.mem_range.mpr (by omega), ?_⟩
    rw [Prod.mk.injEq]
    exact ⟨by omega, by omega⟩

theorem mem_gridCandidates (c b : Coord) :
    b ∈ (deltas.map fun d => (c.1 + d.1, c.2 + d.2)) ↔
      c ∈ (deltas.map fun d => (b.1 + d.1, b.2 + d.2)) := by
  constructor <;>
    (intro h; simp [deltas, Prod.ext_iff] at h ⊢; omega)

theorem dictGet_gridNeighbors (W H : Nat) (c b : Coord) :
    dictGet (gridNeighbors (α := α) W H c) b =
      if b ∈ ((deltas.map fun d => (c.1 + d.1, c.2 + d.2)).filter (inBounds W H))
      then some 1 else none := by
  simp only [gridNeighbors]
  exact dictGet_map_self _ (fun _ => (1 : α)) b

theorem create_grid_sym (W H : Nat) : SymNodes (create_grid (α := α) W H) := by
  intro c e w h
  simp only [edgeGet, create_grid] at h ⊢
  rw [dictGet_map_self (gridCoords W H) (gridNode W H) c] at h
  by_cases hc : c ∈ gridCoords W H
  · rw [if_pos hc] at h
    have h' : dictGet (gridNeighbors (α := α) W H c) e = some w := h
    rw [dictGet_gridNeighbors] at h'
    by_cases he : e ∈ ((deltas.map fun d => (c.1 + d.1, c.2 + d.2)).filter (inBounds W H))
    · rw [if_pos he] at h'
      obtain ⟨hecand, hebound⟩ := List.mem_filter.mp he
      have hein : e ∈ gridCoords W H := (mem_gridCoords W H e).mpr hebound
      rw [dictGet_map_self (gridCoords W H) (gridNode W H) e, if_pos hein]
      show dictGet (gridNeighbors (α := α) W H e) c = some w
      rw [dictGet_gridNeighbors]
      rw [if_pos (List.mem_filter.mpr
        ⟨(mem_gridCandidates c e).mp hecand, (mem_gridCoords W H c).mp hc⟩)]
      exact h'
    · rw [if_neg he] at h'
      cases h'
  · rw [if_neg hc] at h
    cases h

theorem edgeGet_pair_update (ns : List (Coord × Node α)) (a b : Coord) (w : α)
    (na nb : Node α) (hab : a ≠ b) (hna : dictGet ns a = some na)
    (hnb : dictGet ns b = some nb) (c e : Coord) :
    edgeGet (dictSet (dictSet ns a { na with neighbors := dictSet na.neighbors b w }) b
        { nb with neighbors := dictSet nb.neighbors a w }) c e =
      if (c = b ∧ e = a) ∨ (c = a ∧ e = b) then some w else edgeGet ns c e := by
  by_cases hcb : c = b
  · by_cases hea : e = a
    · simp [edgeGet, dictGet_dictSet, hcb, hea]
    · simp [edgeGet, dictGet_dictSet, hcb, hea, hnb, Ne.symm hab]
  · by_cases hca : c = a
    · by_cases heb : e = b
      · simp [edgeGet, dictGet_dictSet, hcb, hca, heb, hab]
      · simp [edgeGet, dictGet_dictSet, hcb, hca, heb, hna, hab]
    · simp [edgeGet, dictGet_dictSet, hcb, hca]

theorem pair_update_sym (ns : List (Coord × Node α)) (a b : Coord) (w : α) (na nb : Node α)
    (hab : a ≠ b) (hna : dictGet ns a = some na) (hnb : dictGet ns b = some nb)
    (hsym : SymNodes ns) :
    SymNodes (dictSet (dictSet ns a { na with neighbors := dictSet na.neighbors b w }) b
      { nb with neighbors := dictSet nb.neighbors a w }) := by
  intro c e w' h
  rw [edgeGet_pair_update ns a b w na nb hab hna hnb] at h
  rw [edgeGet_pair_update ns a b w na nb hab hna hnb]
  by_cases hcond : (c = b ∧ e = a) ∨ (c = a ∧ e = b)
  · rw [if_pos hcond] at h
    rw [if_pos (by tauto)]
    exact h
  · rw [if_neg hcond] at h
    rw [if_neg (by tauto)]
    exact hsym c e w' h

theorem edgeGet_self_update (ns : List (Coord × Node α)) (a : Coord) (w : α) (na : Node α)
    (hna : dictGet ns a = some na) (c e : Coord) :
    edgeGet (dictSet (dictSet ns a { na with neighbors := dictSet na.neighbors a w }) a
        { na with neighbors := dictSet (dictSet na.neighbors a w) a w }) c e =
      if c = a ∧ e = a then some w else edgeGet ns c e := by
  by_cases hca : c = a
  · by_cases hea : e = a
    · simp [edgeGet, dictGet_dictSet, hca, hea]
    · simp [edgeGet, dictGet_dictSet, hca, hea, hna]
  · simp [edgeGet, dictGet_dictSet, hca]

theorem self_update_sym (ns : List (Coord × Node α)) (a : Coord) (w : α) (na : Node α)
    (hna : dictGet ns a = some na) (hsym : SymNodes ns) :
    SymNodes (dictSet (dictSet ns a { na with neighbors := dictSet na.neighbors a w }) a
      { na with neighbors := dictSet (dictSet na.neighbors a w) a w }) := by
  intro c e w' h
  rw [edgeGet_self_update ns a w na hna] at h
  rw [edgeGet_self_update ns a w na hna]
  by_cases hcond : c = a ∧ e = a
  · rw [if_pos hcond] at h
    rw [if_pos (by tauto)]
    exact h
  · rw [if_neg hcond] at h
    rw [if_neg (by tauto)]
    exact hsym c e w' h

theorem addNeighbor_isSome (ns : List (Coord × Node α)) (c b : Coord) (w : α) (k : Coord) :
    (dictGet (addNeighbor ns c b w) k).isSome = (dictGet ns k).isSome := by
  cases hn : dictGet ns c with
  | none => simp [addNeighbor, hn]
  | some n =>
    simp only [addNeighbor, hn, dictGet_dictSet]
    by_cases hk : k = c
    · simp [hk, hn]
    · simp [hk]

theorem addNeighbor_pair_sym (ns : List (Coord × Node α)) (a b : Coord) (w : α)
    (hab : a ≠ b) (ha : (dictGet ns a).isSome = true) (hb : (dictGet ns b).isSome = true)
    (hsym : SymNodes ns) : SymNodes (addNeighbor (addNeighbor ns a b w) b a w) := by
  obtain ⟨na, hna⟩ := Option.isSome_iff_exists.mp ha
  obtain ⟨nb, hnb⟩ := Option.isSome_iff_exists.mp hb
  have h1 : addNeighbor ns a b w =
      dictSet ns a { na with neighbors := dictSet na.neighbors b w } := by
    simp only [addNeighbor, hna]
  rw [h1]
  have h2 : dictGet (dictSet ns a { na with neighbors := dictSet na.neighbors b w }) b =
      some nb := by
    rw [dictGet_dictSet, if_neg (Ne.symm hab)]
    exact hnb
  rw [show addNeighbor (dictSet ns a { na with neighbors := dictSet na.neighbors b w }) b a w =
      dictSet (dictSet ns a { na with neighbors := dictSet na.neighbors b w }) b
        { nb with neighbors := dictSet nb.neighbors a w } from by simp only [addNeighbor, h2]]
  exact pair_update_sym ns a b w na nb hab hna hnb hsym

theorem addRoads_sym (W H : Nat) (dist : Coord → Coord → α) (a : Coord) (bs : List Coord) :
    ∀ ns, SymNodes ns → (∀ c ∈ gridCoords W H, (dictGet ns c).isSome = true) →
      a ∈ gridCoords W H → (∀ b ∈ bs, b ∈ gridCoords W H) →
      SymNodes (addRoads dist ns a bs) ∧
        ∀ c ∈ gridCoords W H, (dictGet (addRoads dist ns a bs) c).isSome = true := by
  induction bs with
  | nil => intro ns hsym hkeys _ _; exact ⟨hsym, hkeys⟩
  | cons b bs ih =>
    intro ns hsym hkeys hain hbs
    have hstep : addRoads dist ns a (b :: bs) =
        addRoads dist (if a = b then ns
          else addNeighbor (addNeighbor ns a b (dist a b)) b a (dist a b)) a bs := rfl
    rw [hstep]
    by_cases hab : a = b
    · rw [if_pos hab]
      exact ih ns hsym hkeys hain fun b' hb' => hbs b' (List.mem_cons_of_mem _ hb')
    · rw [if_neg hab]
      apply ih
      · exact addNeighbor_pair_sym ns a b (dist a b) hab (hkeys a hain)
          (hkeys b (hbs b (List.mem_cons_self b bs))) hsym
      · intro c hc
        rw [addNeighbor_isSome, addNeighbor_isSome]
        exact hkeys c hc
      · exact hain
      · exact fun b' hb' => hbs b' (List.mem_cons_of_mem _ hb')

theorem create_random_roads_sym (W H : Nat) (choices : Coord → List Coord)
    (dist : Coord → Coord → α)
    (hch : ∀ a, ∀ b ∈ choices a, b ∈ gridCoords W H) :
    SymNodes (create_random_roads (α := α) W H choices dist) := by
  have hinit : SymNodes ((gridCoords W H).map fun c => (c, (emptyNode c : Node α))) := by
    intro c e w h
    simp only [edgeGet] at h
    rw [dictGet_map_self (gridCoords W H) (emptyNode (α := α)) c] at h
    by_cases hc : c ∈ gridCoords W H
    · rw [if_pos hc] at h
      simp [emptyNode, dictGet] at h
    · rw [if_neg hc] at h
      cases h
  have hikeys : ∀ c ∈ gridCoords W H,
      (dictGet ((gridCoords W H).map fun c => (c, (emptyNode c : Node α))) c).isSome = true := by
    intro c hc
    rw [dictGet_map_self (gridCoords W H) (emptyNode (α := α)) c, if_pos hc]
    rfl
  have hfold : ∀ (l : List Coord) (ns : List (Coord × Node α)),
      (∀ a ∈ l, a ∈ gridCoords W H) → SymNodes ns →
      (∀ c ∈ gridCoords W H, (dictGet ns c).isSome = true) →
      SymNodes (l.foldl (fun ns a => addRoads dist ns a (choices a)) ns) := by
    intro l
    induction l with
    | nil => intro ns _ hsym _; exact hsym
    | cons a l ih =>
      intro ns hl hsym hkeys
      have hstep := addRoads_sym W H dist a (choices a) ns hsym hkeys
        (hl a (List.mem_cons_self a l)) (hch a)
      exact ih _ (fun a' ha' => hl a' (List.mem_cons_of_mem _ ha')) hstep.1 hstep.2
  exact hfold (gridCoords W H) _ (fun a ha => ha) hinit hikeys

theorem edgeGet_mkTown (W H sd yd : Nat) (rr : Bool) (choices : Coord → List Coord)
    (dist : Coord → Coord → α) (offsets : Coord → Nat) (c e : Coord) :
    edgeGet (mkTown W H sd yd rr choices dist offsets).nodes c e =
      edgeGet (if rr then create_random_roads W H choices dist
        else create_grid (α := α) W H) c e := by
  simp only [edgeGet, dictGet_mkTown_nodes]
  cases dictGet (if rr then create_random_roads W H choices dist
    else create_grid (α := α) W H) c <;> rfl

theorem mkTown_sym (W H sd yd : Nat) (rr : Bool) (choices : Coord → List Coord)
    (dist : Coord → Coord → α) (offsets : Coord → Nat)
    (hbase : SymNodes (if rr then create_random_roads W H choices dist
      else create_grid (α := α) W H)) :
    SymmetricTown (mkTown W H sd yd rr choices dist offsets) := by
  intro c e w h
  rw [edgeGet_mkTown] at h
  rw [edgeGet_mkTown]
  exact hbase c e w h

theorem set_road_weight_sym (t t' : Town α) (a b : Coord) (w : α)
    (hsym : SymmetricTown t) (hok : t.set_road_weight a b w = .ok t') :
    SymmetricTown t' := by
  cases hna : dictGet t.nodes a with
  | none =>
    simp only [Town.set_road_weight, hna] at hok
    cases hok
  | some na =>
    cases hw0 : dictGet na.neighbors b with
    | none =>
      simp only [Town.set_road_weight, hna, hw0] at hok
      injection hok with hok
      rw [← hok]
      exact hsym
    | some w0 =>
      by_cases hab : a = b
      · subst hab
        have hb1 : dictGet (dictSet t.nodes a { na with neighbors := dictSet na.neighbors a w })
            a = some { na with neighbors := dictSet na.neighbors a w } := by
          rw [dictGet_dictSet, if_pos rfl]
        simp only [Town.set_road_weight, hna, hw0, hb1] at hok
        injection hok with hok
        rw [← hok]
        exact self_update_sym t.nodes a w na hna hsym
      · have hb1 : dictGet (dictSet t.nodes a { na with neighbors := dictSet na.neighbors b w })
            b = dictGet t.nodes b := by
          rw [dictGet_dictSet, if_neg (Ne.symm hab)]
        cases hnb : dictGet t.nodes b with
        | none =>
          simp only [Town.set_road_weight, hna, hw0, hb1, hnb] at hok
          cases hok
        | some nb =>
          simp only [Town.set_road_weight, hna, hw0, hb1, hnb] at hok
          injection hok with hok
          rw [← hok]
          exact pair_update_sym t.nodes a b w na nb hab hna hnb hsym

/-- C6.  Edge symmetry holds after construction — in grid mode
unconditionally, in random-road mode whenever the drawn samples are node
coordinates (as `random.sample` over the node list guarantees) — and it is
preserved by every completing `set_road_weight` call: whenever node `a`
lists `b` as a neighbor with weight `w`, node `b` lists `a` with the same
`w`. -/
theorem edge_symmetry (W H sd yd : Nat) (choices : Coord → List Coord)
    (dist : Coord → Coord → α) (offsets : Coord → Nat) :
    SymmetricTown (mkTown W H sd yd false choices dist offsets) ∧
    ((∀ a, ∀ b ∈ choices a, b ∈ gridCoords W H) →
      SymmetricTown (mkTown W H sd yd true choices dist offsets)) ∧
    ∀ (t t' : Town α) (a b : Coord) (w : α),
      SymmetricTown t → t.set_road_weight a b w = .ok t' → SymmetricTown t' := by
  refine ⟨?_, ?_, ?_⟩
  · exact mkTown_sym W H sd yd false choices dist offsets (create_grid_sym W H)
  · intro hch
    exact mkTown_sym W H sd yd true choices dist offsets
      (create_random_roads_sym W H choices dist hch)
  · exact fun t t' a b w hsym hok => set_road_weight_sym t t' a b w hsym hok

/-- Witness for C6: the 2-by-2 grid town, the concrete disconnected
random-road town, and the grid town after a `set_road_weight` call are all
edge-symmetric. -/
theorem edge_symmetry_witness :
    SymmetricTown (mkGrid 2 2 : Town Int) ∧ SymmetricTown discTown ∧ SymmetricTown c4Town := by
  have h := edge_symmetry (α := Int) 2 2 2 1 discChoices sqDist (fun _ => 0)
  have hch : ∀ a : Coord, ∀ b ∈ discChoices a, b ∈ gridCoords 2 2 := by
    intro a b hb
    rw [mem_gridCoords]
    simp only [discChoices] at hb
    split_ifs at hb <;> simp at hb <;> rcases hb with rfl | rfl <;> decide
  exact ⟨h.1, h.2.1 hch, h.2.2 (mkGrid 2 2) c4Town (0, 0) (1, 0) 0 h.1 rfl⟩

/-! ### Claims C9 and C3: structure of returned paths, disconnected pairs -/

theorem dictGet_isSome_of_mem {β : Type} {d : List (Coord × β)} {k : Coord} {v : β}
    (h : (k, v) ∈ d) : (dictGet d k).isSome = true := by
  induction d with
  | nil => cases h
  | cons e rest ih =>
    rcases List.mem_cons.mp h with rfl | h'
    · simp [dictGet]
    · by_cases hk : k = e.1 <;> simp [dictGet, hk, ih h']

theorem mem_heappush {h : List (α × Coord)} {x y : α × Coord} :
    y ∈ heappush h x ↔ y ∈ h ∨ y = x := by
  induction h with
  | nil => simp [heappush]
  | cons z rest ih =>
    simp only [heappush]
    by_cases ht : tupleLt x z = true
    · simp only [if_pos ht, List.mem_cons]
      tauto
    · simp only [if_neg ht, List.mem_cons, ih]
      tauto

theorem relaxOne_inv (t : Town α) (s goal current : Coord) (node : Node α)
    (hnode : dictGet t.nodes current = some node) (hw : WeightsPos t)
    (e : Coord × α) (he : e ∈ node.neighbors) (st st' : AState α)
    (hinv : AInv t s st) (hcur : current = s ∨ (dictGet st.cameFrom current).isSome = true)
    (hok : relaxOne goal current st e = .ok st') :
    AInv t s st' ∧ (current = s ∨ (dictGet st'.cameFrom current).isSome = true) := by
  obtain ⟨nb, w⟩ := e
  have hwpos : 0 < w := hw (current, node) (dictGet_mem hnode) (nb, w) he
  cases hgc : dictGet st.gScore current with
  | none =>
    simp only [relaxOne, hgc] at hok
    cases hok
  | some gcur =>
    cases hgn : dictGet st.gScore nb with
    | none =>
      simp only [relaxOne, hgc, hgn] at hok
      cases hok
    | some gnb =>
      cases gcur with
      | none =>
        simp only [relaxOne, hgc, hgn] at hok
        injection hok with hok
        rw [← hok]
        exact ⟨hinv, hcur⟩
      | some gq =>
        have hq0 : 0 ≤ gq := hinv.g_nonneg current gq hgc
        by_cases hlt : qinfLt (α := α) (some (gq + w)) gnb = true
        · have hnc : nb ≠ current := by
            intro hnc
            rw [hnc, hgc] at hgn
            injection hgn with hgn
            rw [← hgn] at hlt
            simp only [qinfLt, decide_eq_true_eq] at hlt
            exact absurd hlt (not_lt.mpr (le_add_of_nonneg_right hwpos.le))
          have hns : nb ≠ s := by
            intro hns
            rw [hns, hinv.start_g] at hgn
            injection hgn with hgn
            rw [← hgn] at hlt
            simp only [qinfLt, decide_eq_true_eq] at hlt
            exact absurd hlt (not_lt.mpr (add_nonneg hq0 hwpos.le))
          simp only [relaxOne, hgc, hgn, if_pos hlt] at hok
          injection hok with hok
          rw [← hok]
          have hAdj : Adjacent t current nb := by
            simp only [Adjacent, adjacentB, hnode]
            exact dictGet_isSome_of_mem he
          refine ⟨⟨?_, ?_, ?_, ?_, ?_, ?_, ?_⟩, ?_⟩
          · intro a b hab
            have hab' : dictGet (dictSet st.cameFrom nb current) a = some b := hab
            rw [dictGet_dictSet] at hab'
            by_cases ha : a = nb
            · rw [if_pos ha] at hab'
              injection hab' with hab'
              rw [← hab', ha]
              exact hAdj
            · rw [if_neg ha] at hab'
              exact hinv.cf_edge a b hab'
          · intro a b hab
            have hab' : dictGet (dictSet st.cameFrom nb current) a = some b := hab
            rw [dictGet_dictSet] at hab'
            show ∃ ga gb : α, dictGet (dictSet st.gScore nb (some (gq + w))) a = _ ∧
              dictGet (dictSet st.gScore nb (some (gq + w))) b = _ ∧ _
            by_cases ha : a = nb
            · rw [if_pos ha] at hab'
              injection hab' with hab'
              refine ⟨gq + w, gq, ?_, ?_, lt_add_of_pos_right gq hwpos⟩
              · rw [dictGet_dictSet, if_pos ha]
              · rw [← hab', dictGet_dictSet, if_neg (Ne.symm hnc), hgc]
            · rw [if_neg ha] at hab'
              obtain ⟨ga, gb, hga, hgb, hlt2⟩ := hinv.cf_g a b hab'
              by_cases hb : b = nb
              · rw [hb, hgn] at hgb
                injection hgb with hgb
                rw [hgb] at hlt
                simp only [qinfLt, decide_eq_true_eq] at hlt
                refine ⟨ga, gq + w, ?_, ?_, lt_trans hlt hlt2⟩
                · rw [dictGet_dictSet, if_neg ha, hga]
                · rw [hb, dictGet_dictSet, if_pos rfl]
              · refine ⟨ga, gb, ?_, ?_, hlt2⟩
                · rw [dictGet_dictSet, if_neg ha, hga]
                · rw [dictGet_dictSet, if_neg hb, hgb]
          · intro a q hq
            have hq' : dictGet (dictSet st.gScore nb (some (gq + w))) a = some (some q) := hq
            rw [dictGet_dictSet] at hq'
            by_cases ha : a = nb
            · rw [if_pos ha] at hq'
              injection hq' with hq'
              injection hq' with hq'
              rw [← hq']
              exact add_nonneg hq0 hwpos.le
            · rw [if_neg ha] at hq'
              exact hinv.g_nonneg a q hq'
          · show dictGet (dictSet st.gScore nb (some (gq + w))) s = some (some 0)
            rw [dictGet_dictSet, if_neg (Ne.symm hns), hinv.start_g]
          · show dictGet (dictSet st.cameFrom nb current) s = none
            rw [dictGet_dictSet, if_neg (Ne.symm hns), hinv.start_not_cf]
          · intro a b hab
            have hab' : dictGet (dictSet st.cameFrom nb current) a = some b := hab
            rw [dictGet_dictSet] at hab'
            by_cases ha : a = nb
            · rw [if_pos ha] at hab'
              injection hab' with hab'
              rw [← hab']
              rcases hcur with hcs | hck
              · exact Or.inl hcs
              · refine Or.inr ?_
                show (dictGet (dictSet st.cameFrom nb current) current).isSome = true
                rw [dictGet_dictSet, if_neg (Ne.symm hnc)]
                exact hck
            · rw [if_neg ha] at hab'
              rcases hinv.cf_val a b hab' with hbs | hbk
              · exact Or.inl hbs
              · refine Or.inr ?_
                show (dictGet (dictSet st.cameFrom nb current) b).isSome = true
                rw [dictGet_dictSet]
                by_cases hb : b = nb
                · rw [if_pos hb]; rfl
                · rw [if_neg hb]; exact hbk
          · intro f c hmem
            have hkey : ∀ c', (c' = s ∨ (dictGet st.cameFrom c').isSome = true) →
                c' = s ∨ (dictGet (dictSet st.cameFrom nb current) c').isSome = true := by
              intro c' hc'
              rcases hc' with h1 | h2
              · exact Or.inl h1
              · refine Or.inr ?_
                rw [dictGet_dictSet]
                by_cases hcn : c' = nb
                · rw [if_pos hcn]; rfl
                · rw [if_neg hcn]; exact h2
            have hmem' : (f, c) ∈ (if (gq + w + heuristic nb goal, nb) ∈ st.openSet
                then st.openSet else heappush st.openSet (gq + w + heuristic nb goal, nb)) := hmem
            by_cases hin : (gq + w + heuristic nb goal, nb) ∈ st.openSet
            · rw [if_pos hin] at hmem'
              exact hkey c (hinv.open_ok f c hmem')
            · rw [if_neg hin] at hmem'
              rcases mem_heappush.mp hmem' with hold | hnew
              · exact hkey c (hinv.open_ok f c hold)
              · refine Or.inr ?_
                have hcnb : c = nb := congrArg Prod.snd hnew
                show (dictGet (dictSet st.cameFrom nb current) c).isSome = true
                rw [dictGet_dictSet, if_pos hcnb]
                rfl
          · rcases hcur with hcs | hck
            · exact Or.inl hcs
            · refine Or.inr ?_
              show (dictGet (dictSet st.cameFrom nb current) current).isSome = true
              rw [dictGet_dictSet, if_neg (Ne.symm hnc)]
              exact hck
        · simp only [relaxOne, hgc, hgn, if_neg hlt] at hok
          injection hok with hok
          rw [← hok]
          exact ⟨hinv, hcur⟩

theorem relaxList_inv (t : Town α) (s goal current : Coord) (node : Node α)
    (hnode : dictGet t.nodes current = some node) (hw : WeightsPos t) :
    ∀ (l : List (Coord × α)), (∀ e ∈ l, e ∈ node.neighbors) →
      ∀ st st', AInv t s st →
        (current = s ∨ (dictGet st.cameFrom current).isSome = true) →
        relaxList goal current st l = .ok st' →
        AInv t s st' := by
  intro l
  induction l with
  | nil =>
    intro _ st st' hinv _ h
    simp only [relaxList] at h
    injection h with h
    rw [← h]
    exact hinv
  | cons e l ih =>
    intro hl st st' hinv hcur h
    cases hr : relaxOne goal current st e with
    | error err =>
      simp only [relaxList, hr] at h
      cases h
    | ok st1 =>
      simp only [relaxList, hr] at h
      obtain ⟨hinv1, hcur1⟩ := relaxOne_inv t s goal current node hnode hw e
        (hl e (List.mem_cons_self e l)) st st1 hinv hcur hr
      exact ih (fun e' he' => hl e' (List.mem_cons_of_mem _ he')) st1 st' hinv1 hcur1 h

theorem length_filter_mono {β : Type} (l : List β) (p q : β → Bool)
    (h : ∀ a ∈ l, q a = true → p a = true) :
    (l.filter q).length ≤ (l.filter p).length := by
  induction l with
  | nil => simp
  | cons a l ih =>
    have ih' := ih fun a' ha' hq => h a' (List.mem_cons_of_mem _ ha') hq
    cases hq : q a
    · cases hp : p a
      · simpa [List.filter, hq, hp] using ih'
      · simp only [List.filter, hq, hp, List.length_cons]
        omega
    · have hp : p a = true := h a (List.mem_cons_self a l) hq
      simp only [List.filter, hq, hp, List.length_cons]
      omega

theorem length_filter_lt {β : Type} (l : List β) (p q : β → Bool) (x : β)
    (hx : x ∈ l) (hpx : p x = true) (hqx : q x = false)
    (h : ∀ a ∈ l, q a = true → p a = true) :
    (l.filter q).length < (l.filter p).length := by
  induction l with
  | nil => cases hx
  | cons a l ih =>
    have h' : ∀ a' ∈ l, q a' = true → p a' = true :=
      fun a' ha' hq => h a' (List.mem_cons_of_mem _ ha') hq
    rcases List.mem_cons.mp hx with rfl | hx'
    · simp only [List.filter, hqx, hpx, List.length_cons]
      exact Nat.lt_succ_of_le (length_filter_mono l p q h')
    · have ihx := ih hx' h'
      cases hq : q a
      · cases hp : p a
        · simpa [List.filter, hq, hp] using ihx
        · simp only [List.filter, hq, hp, List.length_cons]
          omega
      · have hp : p a = true := h a (List.mem_cons_self a l) hq
        simp only [List.filter, hq, hp, List.length_cons]
        omega

theorem reconstructAux_spec (cf : List (Coord × Coord)) (μ : Coord → α) (s : Coord)
    (hdec : ∀ a b, dictGet cf a = some b → μ b < μ a)
    (hval : ∀ a b, dictGet cf a = some b → b = s ∨ (dictGet cf b).isSome = true)
    (hs : dictGet cf s = none) :
    ∀ (fuel : Nat) (current : Coord) (acc : List Coord),
      (cf.filter fun e => decide (μ e.1 ≤ μ current)).length < fuel →
      (current = s ∨ (dictGet cf current).isSome = true) →
      ∃ pre, reconstructAux cf current acc fuel = some (pre ++ acc) ∧
        (pre ++ [current]).head? = some s ∧
        List.Chain' (fun x y => dictGet cf y = some x) (pre ++ [current]) := by
  intro fuel
  induction fuel with
  | zero =>
    intro current acc hbound
    omega
  | succ fuel ih =>
    intro current acc hbound hcur
    cases hc : dictGet cf current with
    | none =>
      rcases hcur with rfl | hk
      · refine ⟨[], ?_, by simp, by simp⟩
        simp [reconstructAux, hc]
      · rw [hc] at hk
        cases hk
    | some prev =>
      have hdecc : μ prev < μ current := hdec current prev hc
      have hprev := hval current prev hc
      have hmem : (current, prev) ∈ cf := dictGet_mem hc
      have hbound' : (cf.filter fun e => decide (μ e.1 ≤ μ prev)).length < fuel := by
        have hlt := length_filter_lt cf (fun e => decide (μ e.1 ≤ μ current))
          (fun e => decide (μ e.1 ≤ μ prev)) (current, prev) hmem
          (by simp) (by simp [not_le.mpr hdecc])
          (fun a _ hq => by
            simp only [decide_eq_true_eq] at hq ⊢
            exact le_trans hq hdecc.le)
        omega
      obtain ⟨pre, hrec, hhead, hchain⟩ := ih prev (prev :: acc) hbound' hprev
      refine ⟨pre ++ [prev], ?_, ?_, ?_⟩
      · simp only [reconstructAux, hc]
        rw [hrec]
        simp
      · rcases pre with - | ⟨z, pre'⟩
        · simpa using hhead
        · simpa using hhead
      · rw [List.chain'_append]
        refine ⟨by simpa using hchain, List.chain'_singleton current, ?_⟩
        intro x hxl y hyr
        simp only [List.getLast?_concat, Option.mem_def, Option.some.injEq] at hxl
        simp only [List.head?_cons, Option.mem_def, Option.some.injEq] at hyr
        rw [← hxl, ← hyr]
        exact hc

theorem dictGet_map_none {β : Type} (d : List (Coord × β)) (a : Coord) :
    dictGet (d.map fun e => (e.1, (none : Option α))) a =
      (dictGet d a).map fun _ => (none : Option α) := by
  induction d with
  | nil => rfl
  | cons e rest ih => by_cases hk : a = e.1 <;> simp [dictGet, hk, ih]

theorem aStarLoop_found_spec (t : Town α) (s goal : Coord) (hw : WeightsPos t) :
    ∀ (fuel : Nat) (st : AState α) (p : List Coord), AInv t s st →
      aStarLoop t goal st fuel = .found p →
      p.head? = some s ∧ p.getLast? = some goal ∧ p.Chain' (Adjacent t) := by
  intro fuel
  induction fuel with
  | zero =>
    intro st p _ h
    simp only [aStarLoop] at h
    cases h
  | succ fuel ih =>
    intro st p hinv h
    cases hopen : st.openSet with
    | nil =>
      simp only [aStarLoop, hopen] at h
      cases h
    | cons fc rest =>
      obtain ⟨f, current⟩ := fc
      by_cases hgoal : current = goal
      · subst hgoal
        cases hrp : reconstruct_path st.cameFrom current with
        | none =>
          simp only [aStarLoop, hopen, if_pos rfl, hrp] at h
          cases h
        | some p' =>
          simp only [aStarLoop, hopen, if_pos rfl, hrp] at h
          injection h with h
          have hcur : current = s ∨ (dictGet st.cameFrom current).isSome = true :=
            hinv.open_ok f current (by rw [hopen]; exact List.mem_cons_self _ _)
          have hdec : ∀ a b, dictGet st.cameFrom a = some b →
              gval st.gScore b < gval st.gScore a := by
            intro a b hab
            obtain ⟨ga, gb, hga, hgb, hlt⟩ := hinv.cf_g a b hab
            have h1 : gval st.gScore a = ga := by simp [gval, hga]
            have h2 : gval st.gScore b = gb := by simp [gval, hgb]
            rw [h1, h2]
            exact hlt
          have hbound : (st.cameFrom.filter fun e =>
              decide (gval st.gScore e.1 ≤ gval st.gScore current)).length <
              st.cameFrom.length + 1 :=
            Nat.lt_succ_of_le (List.length_filter_le _ _)
          obtain ⟨pre, hrec, hhead, hchain⟩ := reconstructAux_spec st.cameFrom
            (gval st.gScore) s hdec hinv.cf_val hinv.start_not_cf
            (st.cameFrom.length + 1) current [current] hbound hcur
          rw [reconstruct_path, hrec] at hrp
          injection hrp with hrp
          rw [← h, ← hrp]
          refine ⟨hhead, by rw [List.getLast?_concat], ?_⟩
          exact hchain.imp fun x y hxy => hinv.cf_edge y x hxy
      · cases hnode : dictGet t.nodes current with
        | none =>
          simp only [aStarLoop, hopen, if_neg hgoal, hnode] at h
          cases h
        | some node =>
          cases hrl : relaxList goal current { st with openSet := rest } node.neighbors with
          | error err =>
            simp only [aStarLoop, hopen, if_neg hgoal, hnode, hrl] at h
            cases h
          | ok st' =>
            simp only [aStarLoop, hopen, if_neg hgoal, hnode, hrl] at h
            have hinvPop : AInv t s { st with openSet := rest } := by
              refine ⟨hinv.cf_edge, hinv.cf_g, hinv.g_nonneg, hinv.start_g,
                hinv.start_not_cf, hinv.cf_val, ?_⟩
              intro f' c hmem
              exact hinv.open_ok f' c (by rw [hopen]; exact List.mem_cons_of_mem _ hmem)
            have hcur : current = s ∨ (dictGet st.cameFrom current).isSome = true :=
              hinv.open_ok f current (by rw [hopen]; exact List.mem_cons_self _ _)
            have hinv' := relaxList_inv t s goal current node hnode hw node.neighbors
              (fun e he => he) { st with openSet := rest } st' hinvPop hcur hrl
            exact ih st' p hinv' h

theorem aStar_init_inv (t : Town α) (s goal : Coord) :
    AInv t s
      { openSet := [((0 : α), s)], cameFrom := [],
        gScore := dictSet (t.nodes.map fun e => (e.1, (none : Option α))) s (some 0),
        fScore := dictSet (t.nodes.map fun e => (e.1, (none : Option α))) s
          (some (heuristic s goal)) } := by
  refine ⟨?_, ?_, ?_, ?_, ?_, ?_, ?_⟩
  · intro a b hab
    simp [dictGet] at hab
  · intro a b hab
    simp [dictGet] at hab
  · intro a q hq
    have hq' : dictGet (dictSet (t.nodes.map fun e => (e.1, (none : Option α))) s (some 0)) a =
        some (some q) := hq
    rw [dictGet_dictSet] at hq'
    by_cases ha : a = s
    · rw [if_pos ha] at hq'
      injection hq' with hq'
      injection hq' with hq'
      rw [← hq']
    · rw [if_neg ha, dictGet_map_none] at hq'
      obtain ⟨v, -, hv⟩ := Option.map_eq_some'.mp hq'
      cases hv
  · show dictGet (dictSet (t.nodes.map fun e => (e.1, (none : Option α))) s (some 0)) s = _
    rw [dictGet_dictSet, if_pos rfl]
  · rfl
  · intro a b hab
    simp [dictGet] at hab
  · intro f c hmem
    have hmem' : (f, c) ∈ [((0 : α), s)] := hmem
    simp only [List.mem_singleton, Prod.mk.injEq] at hmem'
    exact Or.inl hmem'.2

theorem aStar_found_spec (t : Town α) (s goal : Coord) (hw : WeightsPos t) (fuel : Nat)
    (p : List Coord) (h : t.a_star s goal fuel = .found p) :
    p.head? = some s ∧ p.getLast? = some goal ∧ p.Chain' (Adjacent t) :=
  aStarLoop_found_spec t s goal hw fuel _ p (aStar_init_inv t s goal) h

/-- C9.  For every graph state with positive edge weights, every path
`a_star` returns has first element `start`, last element `goal`, and every
consecutive pair of its elements connected by an existing edge of the
graph. -/
theorem a_star_found_path_valid (t : Town α) (s g : Coord) (hw : WeightsPos t)
    (fuel : Nat) (p : List Coord) (h : t.a_star s g fuel = .found p) :
    p.head? = some s ∧ p.getLast? = some g ∧ p.Chain' (Adjacent t) :=
  aStar_found_spec t s g hw fuel p h

/-- Witness for C9: the path returned on the 2-by-2 grid from `(0,0)` to
`(1,1)` starts at the start, ends at the goal, and follows existing
edges. -/
theorem a_star_found_path_valid_witness :
    ([(0, 0), (0, 1), (1, 1)] : List Coord).head? = some ((0 : Int), (0 : Int)) ∧
    ([(0, 0), (0, 1), (1, 1)] : List Coord).getLast? = some ((1 : Int), (1 : Int)) ∧
    ([(0, 0), (0, 1), (1, 1)] : List Coord).Chain' (Adjacent (mkGrid 2 2 : Town Int)) :=
  a_star_found_path_valid (mkGrid 2 2 : Town Int) (0, 0) (1, 1) (by decide) 20 _ (by decide)

theorem relaxOne_ok (t : Town α) (s goal current : Coord) (node : Node α)
    (hnode : dictGet t.nodes current = some node) (hclosed : ClosedTown t)
    (e : Coord × α) (he : e ∈ node.neighbors) (st : AState α) (hninv : NInv t s st) :
    ∃ st', relaxOne goal current st e = .ok st' ∧ NInv t s st' := by
  obtain ⟨nb, w⟩ := e
  have hgc : (dictGet st.gScore current).isSome = true :=
    hninv.g_keys current (Or.inl (by rw [hnode]; rfl))
  have hnbnode : (dictGet t.nodes nb).isSome = true :=
    hclosed (current, node) (dictGet_mem hnode) (nb, w) he
  have hgn : (dictGet st.gScore nb).isSome = true := hninv.g_keys nb (Or.inl hnbnode)
  obtain ⟨gcur, hgc'⟩ := Option.isSome_iff_exists.mp hgc
  obtain ⟨gnb, hgn'⟩ := Option.isSome_iff_exists.mp hgn
  cases gcur with
  | none =>
    refine ⟨st, ?_, hninv⟩
    simp only [relaxOne, hgc', hgn']
  | some gq =>
    by_cases hlt : qinfLt (α := α) (some (gq + w)) gnb = true
    · refine ⟨_, by simp only [relaxOne, hgc', hgn', if_pos hlt]; rfl, ?_, ?_⟩
      · intro f c hmem
        have hmem' : (f, c) ∈ (if (gq + w + heuristic nb goal, nb) ∈ st.openSet
            then st.openSet else heappush st.openSet (gq + w + heuristic nb goal, nb)) := hmem
        by_cases hin : (gq + w + heuristic nb goal, nb) ∈ st.openSet
        · rw [if_pos hin] at hmem'
          exact hninv.open_nodes f c hmem'
        · rw [if_neg hin] at hmem'
          rcases mem_heappush.mp hmem' with hold | hnew
          · exact hninv.open_nodes f c hold
          · have hcnb : c = nb := congrArg Prod.snd hnew
            rw [hcnb]
            exact hnbnode
      · intro c hc
        show (dictGet (dictSet st.gScore nb (some (gq + w))) c).isSome = true
        rw [dictGet_dictSet]
        by_cases hcn : c = nb
        · rw [if_pos hcn]; rfl
        · rw [if_neg hcn]; exact hninv.g_keys c hc
    · refine ⟨st, ?_, hninv⟩
      simp only [relaxOne, hgc', hgn', if_neg hlt]

theorem relaxList_ok (t : Town α) (s goal current : Coord) (node : Node α)
    (hnode : dictGet t.nodes current = some node) (hclosed : ClosedTown t) :
    ∀ (l : List (Coord × α)), (∀ e ∈ l, e ∈ node.neighbors) → ∀ st, NInv t s st →
      ∃ st', relaxList goal current st l = .ok st' ∧ NInv t s st' := by
  intro l
  induction l with
  | nil => intro _ st hn; exact ⟨st, rfl, hn⟩
  | cons e l ih =>
    intro hl st hn
    obtain ⟨st1, hr, hn1⟩ := relaxOne_ok t s goal current node hnode hclosed e
      (hl e (List.mem_cons_self e l)) st hn
    obtain ⟨st', hrl, hn'⟩ := ih (fun e' he' => hl e' (List.mem_cons_of_mem _ he')) st1 hn1
    refine ⟨st', ?_, hn'⟩
    simp only [relaxList, hr]
    exact hrl

theorem aStarLoop_no_keyerror (t : Town α) (s goal : Coord) (hclosed : ClosedTown t) :
    ∀ (fuel : Nat) (st : AState α), NInv t s st → aStarLoop t goal st fuel ≠ .keyError := by
  intro fuel
  induction fuel with
  | zero =>
    intro st _ h
    simp only [aStarLoop] at h
    cases h
  | succ fuel ih =>
    intro st hninv h
    cases hopen : st.openSet with
    | nil =>
      simp only [aStarLoop, hopen] at h
      cases h
    | cons fc rest =>
      obtain ⟨f, current⟩ := fc
      by_cases hgoal : current = goal
      · subst hgoal
        cases hrp : reconstruct_path st.cameFrom current with
        | none =>
          simp only [aStarLoop, hopen, if_pos rfl, hrp] at h
          cases h
        | some p' =>
          simp only [aStarLoop, hopen, if_pos rfl, hrp] at h
          cases h
      · have hcn : (dictGet t.nodes current).isSome = true :=
          hninv.open_nodes f current (by rw [hopen]; exact List.mem_cons_self _ _)
        obtain ⟨node, hnode⟩ := Option.isSome_iff_exists.mp hcn
        have hninvPop : NInv t s { st with openSet := rest } := by
          refine ⟨?_, hninv.g_keys⟩
          intro f' c hmem
          exact hninv.open_nodes f' c (by rw [hopen]; exact List.mem_cons_of_mem _ hmem)
        obtain ⟨st', hrl, hninv'⟩ := relaxList_ok t s goal current node hnode hclosed
          node.neighbors (fun e he => he) { st with openSet := rest } hninvPop
        simp only [aStarLoop, hopen, if_neg hgoal, hnode, hrl] at h
        exact ih st' hninv' h

theorem aStar_init_ninv (t : Town α) (s goal : Coord)
    (hs : (dictGet t.nodes s).isSome = true) :
    NInv t s
      { openSet := [((0 : α), s)], cameFrom := [],
        gScore := dictSet (t.nodes.map fun e => (e.1, (none : Option α))) s (some 0),
        fScore := dictSet (t.nodes.map fun e => (e.1, (none : Option α))) s
          (some (heuristic s goal)) } := by
  constructor
  · intro f c hmem
    have hmem' : (f, c) ∈ [((0 : α), s)] := hmem
    simp only [List.mem_singleton, Prod.mk.injEq] at hmem'
    rw [hmem'.2]
    exact hs
  · intro c hc
    show (dictGet (dictSet (t.nodes.map fun e => (e.1, (none : Option α))) s (some 0))
      c).isSome = true
    rw [dictGet_dictSet]
    by_cases hcs : c = s
    · rw [if_pos hcs]; rfl
    · rw [if_neg hcs, dictGet_map_none]
      rcases hc with hnode | hcs2
      · obtain ⟨n, hn⟩ := Option.isSome_iff_exists.mp hnode
        rw [hn]; rfl
      · exact absurd hcs2 hcs

theorem aStar_no_keyerror (t : Town α) (s goal : Coord) (hclosed : ClosedTown t)
    (hs : (dictGet t.nodes s).isSome = true) (fuel : Nat) :
    t.a_star s goal fuel ≠ .keyError :=
  aStarLoop_no_keyerror t s goal hclosed fuel _ (aStar_init_ninv t s goal hs)

theorem chain_reachable (t : Town α) :
    ∀ (p : List Coord) (s g : Coord), p.head? = some s → p.getLast? = some g →
      p.Chain' (Adjacent t) → Reachable t s g := by
  intro p
  induction p with
  | nil => intro s g hs; cases hs
  | cons a q ih =>
    intro s g hs hl hc
    have has : a = s := by simpa using hs
    subst has
    cases q with
    | nil =>
      have hag : a = g := by simpa using hl
      rw [← hag]
      exact Relation.ReflTransGen.refl
    | cons b q' =>
      rw [List.chain'_cons] at hc
      refine Relation.ReflTransGen.head hc.1 ?_
      exact ih b g (by simp) (by rwa [List.getLast?_cons_cons] at hl) hc.2

theorem adjacent_mem_neighbors (t : Town α) (a b : Coord) (n : Node α)
    (hn : dictGet t.nodes a = some n) (h : Adjacent t a b) :
    b ∈ n.neighbors.map Prod.fst := by
  simp only [Adjacent, adjacentB, hn] at h
  obtain ⟨w, hw⟩ := Option.isSome_iff_exists.mp h
  exact List.mem_map.mpr ⟨(b, w), dictGet_mem hw, rfl⟩

theorem not_reachable_of_closed_list (t : Town α) (S : List Coord) (s g : Coord)
    (hS : ∀ a ∈ S, ∀ b, Adjacent t a b → b ∈ S) (hsS : s ∈ S) (hgS : g ∉ S) :
    ¬ Reachable t s g := by
  intro hr
  have hall : ∀ x, Reachable t s x → x ∈ S := by
    intro x hx
    induction hx with
    | refl => exact hsS
    | tail _ hbc ih => exact hS _ ih _ hbc
  exact hgS (hall g hr)

/-- C3.  For a pair with no connecting path (on a well-formed graph:
positive weights, neighbor closure, the start a node), `a_star` never
returns a path — it returns the "no path" result `None` (or, in the
embedding only, runs out of fuel); and a vehicle registered for that pair
via `add_vehicle` on a fresh simulator gets the empty path, keeps position
index 0, and makes `is_complete()` true immediately, before any `step()`
call. -/
theorem no_path_behavior (t : Town α) (s g : Coord) (hw : WeightsPos t)
    (hclosed : ClosedTown t) (hs : (dictGet t.nodes s).isSome = true)
    (hnr : ¬ Reachable t s g) :
    (∀ fuel, t.a_star s g fuel = .noPath ∨ t.a_star s g fuel = .timeout) ∧
    (∀ (sim' : TrafficSimulator α) (v : Vehicle) (fuel : Nat),
      v.start = s → v.goal = g → v.position_index = 0 →
      TrafficSimulator.add_vehicle ⟨t, []⟩ v fuel = some sim' →
      sim'.vehicles = [{ v with path := [] }] ∧
      ({ v with path := [] } : Vehicle).position_index = 0 ∧
      sim'.is_complete = true) := by
  have hnf : ∀ fuel p, t.a_star s g fuel ≠ .found p := by
    intro fuel p hfound
    obtain ⟨hh, hl, hc⟩ := aStar_found_spec t s g hw fuel p hfound
    exact hnr (chain_reachable t p s g hh hl hc)
  have hcases : ∀ fuel, t.a_star s g fuel = .noPath ∨ t.a_star s g fuel = .timeout := by
    intro fuel
    cases hres : t.a_star s g fuel with
    | found p => exact absurd hres (hnf fuel p)
    | noPath => exact Or.inl rfl
    | keyError => exact absurd hres (aStar_no_keyerror t s g hclosed hs fuel)
    | timeout => exact Or.inr rfl
  refine ⟨hcases, ?_⟩
  intro sim' v fuel hvs hvg hvi hadd
  rcases hcases fuel with hres | hres
  · simp only [TrafficSimulator.add_vehicle, hvs, hvg, hres] at hadd
    injection hadd with hadd
    rw [← hadd]
    refine ⟨by simp [hvs, hvg], hvi, ?_⟩
    simp [TrafficSimulator.is_complete, hvi]
  · simp only [TrafficSimulator.add_vehicle, hvs, hvg, hres] at hadd
    cases hadd

/-- Witness for C3, on the disconnected 2-by-2 random-road town: the
planner reports "no path" for `((0,0), (0,1))`, and the registered vehicle
completes immediately. -/
theorem no_path_behavior_witness :
    (discTown.a_star (0, 0) (0, 1) 20 = .noPath ∨
      discTown.a_star (0, 0) (0, 1) 20 = .timeout) ∧
    (⟨discTown, [⟨(0, 0), (0, 1), [], 0⟩]⟩ : TrafficSimulator Int).is_complete = true := by
  have hnr : ¬ Reachable discTown (0, 0) (0, 1) := by
    apply not_reachable_of_closed_list discTown [((0 : Int), (0 : Int)), ((1 : Int), (0 : Int))]
    · intro a ha b hadj
      rcases List.mem_cons.mp ha with rfl | ha'
      · have hb := adjacent_mem_neighbors discTown _ b
          ⟨0, 0, [((1, 0), 1)], Color.yellow, 0⟩ (by decide) hadj
        simp at hb
        simp [hb]
      · rcases List.mem_cons.mp ha' with rfl | ha''
        · have hb := adjacent_mem_neighbors discTown _ b
            ⟨1, 0, [((0, 0), 1)], Color.yellow, 0⟩ (by decide) hadj
          simp at hb
          simp [hb]
        · cases ha''
    · decide
    · decide
  have h := no_path_behavior discTown (0, 0) (0, 1) (by decide) (by decide) (by decide) hnr
  refine ⟨h.1 20, ?_⟩
  exact (h.2 ⟨discTown, [⟨(0, 0), (0, 1), [], 0⟩]⟩ ⟨(0, 0), (0, 1), [], 0⟩ 20
    rfl rfl rfl (by decide)).2.2

